import Mathlib

/-!
Shallow embedding of the OpenType layout utilities of this repository
(`searchTag`, `binSearch`, `searchRange`, the `Layout` navigation engine over the
Script → LangSys → Feature → Lookup graph, the Coverage/ClassDef queries) and of
the GDEF table parser, together with correctness theorems about them.

JavaScript strings are compared lexicographically by code unit; Lean's `String`
order (`String.lt_iff_toList_lt`) agrees with this on the tags involved, and we
compute it through the character list so that proofs can evaluate it.

The JavaScript `while` loops of the binary searches are embedded with an explicit
fuel argument; the fuel used by the wrappers (`arr.length + 1`) strictly exceeds
the number of iterations the loop can perform (each iteration shrinks
`iMax - iMin` by at least one), and the out-of-fuel value coincides with the
loop-exit value `-iMin - 1`, so the embedding computes exactly what the loop does.
-/

namespace Opentype

/-- String comparison as performed by the JavaScript `<` operator on tags:
lexicographic on the character sequence.  This equals Lean's `String` order
(`String.lt_iff_toList_lt`) but, unlike the built-in decision procedure, reduces
inside the kernel. -/
def tagLtb (a b : String) : Bool := decide (a.toList < b.toList)

/-- Decidability of `String.lt` through the character list, so that `decide` can
evaluate concrete tag comparisons. -/
instance (priority := 1100) decidableLtStringList (a b : String) : Decidable (a < b) :=
  decidable_of_iff (a.toList < b.toList) String.lt_iff_toList_lt.symm

/-- Decidability of `String.le` through the character list. -/
instance (priority := 1100) decidableLeStringList (a b : String) : Decidable (a ≤ b) :=
  decidable_of_iff (a.toList ≤ b.toList) String.le_iff_toList_le.symm

/-- Shared loop body of the source's `searchTag` and `binSearch` (which differ
only in the key projection and key type): binary search over `arr` for `key`,
returning the matching index or `-insertionPoint - 1`.  `(iMin + iMax) >>> 1`
in the source is floor division by two on the in-range non-negative indices.
`keyEq`/`keyLt` embed the JavaScript `===` / `<` comparisons on keys. -/
def bsearchGo {α K : Type} (keyOf : α → K) (keyEq keyLt : K → K → Bool)
    (d : α) (arr : List α) (key : K) : Nat → Int → Int → Int
  | 0, iMin, _ => -iMin - 1
  | fuel + 1, iMin, iMax =>
    if iMin ≤ iMax then
      if keyEq (keyOf (arr.getD ((iMin + iMax) / 2).toNat d)) key then
        (iMin + iMax) / 2
      else if keyLt (keyOf (arr.getD ((iMin + iMax) / 2).toNat d)) key then
        bsearchGo keyOf keyEq keyLt d arr key fuel ((iMin + iMax) / 2 + 1) iMax
      else
        bsearchGo keyOf keyEq keyLt d arr key fuel iMin ((iMin + iMax) / 2 - 1)
    else -iMin - 1

/-- Binary search an object array by `tag` (source: `searchTag(arr, tag)`),
generic in the record type since the source applies it to script, langSys and
feature record arrays alike. -/
def searchTag {α : Type} (tagOf : α → String) (d : α) (arr : List α) (tag : String) : Int :=
  bsearchGo tagOf (fun a b => a == b) tagLtb d arr tag (arr.length + 1) 0 ((arr.length : Int) - 1)

/-- Binary search in a list of numbers (source: `binSearch(arr, value)`). -/
def binSearch (arr : List Nat) (value : Nat) : Int :=
  bsearchGo id (fun a b => a == b) (fun a b => decide (a < b)) 0 arr value
    (arr.length + 1) 0 ((arr.length : Int) - 1)

/-- `Array.prototype.splice(i, 0, x)`: insert `x` at position `i`. -/
def spliceInsert {α : Type} (arr : List α) (i : Nat) (x : α) : List α :=
  arr.take i ++ x :: arr.drop i

/-- Result of the source's `searchRange`: a range object, the number `0`
(value above the end of the candidate range), or `undefined` (value below the
first range).  The callers only distinguish "truthy" (`found`) from the two
falsy outcomes. -/
inductive RangeResult (α : Type) where
  | found : α → RangeResult α
  | zero : RangeResult α
  | missing : RangeResult α
deriving DecidableEq

/-- Loop of the source's `searchRange`: binary search on range starts; an exact
start match returns the range from inside the loop (`inl`), otherwise the final
`iMin` is handed to the post-processing (`inr`). -/
def searchRangeGo {α : Type} (startOf : α → Nat) (d : α) (ranges : List α) (value : Nat) :
    Nat → Int → Int → Sum α Int
  | 0, iMin, _ => .inr iMin
  | fuel + 1, iMin, iMax =>
    if iMin ≤ iMax then
      if startOf (ranges.getD ((iMin + iMax) / 2).toNat d) = value then
        .inl (ranges.getD ((iMin + iMax) / 2).toNat d)
      else if startOf (ranges.getD ((iMin + iMax) / 2).toNat d) < value then
        searchRangeGo startOf d ranges value fuel ((iMin + iMax) / 2 + 1) iMax
      else
        searchRangeGo startOf d ranges value fuel iMin ((iMin + iMax) / 2 - 1)
    else .inr iMin

/-- Binary search in a list of ranges (source: `searchRange(ranges, value)`),
generic in the range type (`{start, end, index}` for coverage,
`{start, end, classId}` for class definitions). -/
def searchRange {α : Type} (startOf endOf : α → Nat) (d : α) (ranges : List α) (value : Nat) :
    RangeResult α :=
  match searchRangeGo startOf d ranges value (ranges.length + 1) 0 ((ranges.length : Int) - 1) with
  | .inl range => .found range
  | .inr iMin =>
    if iMin > 0 then
      if value > endOf (ranges.getD (iMin - 1).toNat d) then .zero
      else .found (ranges.getD (iMin - 1).toNat d)
    else .missing

/-- Coverage range record (source: `{start, end, index}`; `end` is a reserved
word in Lean, so the field is named `stop`). -/
structure CoverageRangeRecord where
  start : Nat
  stop : Nat
  index : Nat
deriving DecidableEq, Inhabited

/-- Coverage table: a raw `format` discriminant together with the fields the
two supported encodings use (`glyphs` for format 1, `ranges` for format 2),
mirroring the untyped object the source works on. -/
structure CoverageTable where
  format : Nat
  glyphs : List Nat
  ranges : List CoverageRangeRecord
deriving DecidableEq, Inhabited

/-- Class-definition range record (source: `{start, end, classId}`). -/
structure ClassRangeRecord where
  start : Nat
  stop : Nat
  classId : Nat
deriving DecidableEq, Inhabited

/-- ClassDef table in either encoding (`startGlyph`/`classes` for format 1,
`ranges` for format 2). -/
structure ClassDefTable where
  format : Nat
  startGlyph : Nat
  classes : List Nat
  ranges : List ClassRangeRecord
deriving DecidableEq, Inhabited

/-- Source: `Layout.getGlyphClass(classDefTable, glyphIndex)`.  The `switch` on
`format` has no default branch, hence the `Option`: `none` models the implicit
`undefined` on unknown formats. -/
def getGlyphClass (classDefTable : ClassDefTable) (glyphIndex : Nat) : Option Nat :=
  if classDefTable.format = 1 then
    if classDefTable.startGlyph ≤ glyphIndex ∧
        glyphIndex < classDefTable.startGlyph + classDefTable.classes.length then
      some (classDefTable.classes.getD (glyphIndex - classDefTable.startGlyph) 0)
    else some 0
  else if classDefTable.format = 2 then
    match searchRange (fun r => r.start) (fun r => r.stop) default classDefTable.ranges glyphIndex with
    | .found range => some range.classId
    | .zero => some 0
    | .missing => some 0
  else none

/-- Source: `Layout.getCoverageIndex(coverageTable, glyphIndex)`; again `none`
models the `undefined` fall-through on unknown formats. -/
def getCoverageIndex (coverageTable : CoverageTable) (glyphIndex : Nat) : Option Int :=
  if coverageTable.format = 1 then
    some (if binSearch coverageTable.glyphs glyphIndex ≥ 0 then
      binSearch coverageTable.glyphs glyphIndex else -1)
  else if coverageTable.format = 2 then
    match searchRange (fun r => r.start) (fun r => r.stop) default coverageTable.ranges glyphIndex with
    | .found range => some ((range.index : Int) + (glyphIndex : Int) - (range.start : Int))
    | .zero => some (-1)
    | .missing => some (-1)
  else none

/-- Source: `Layout.expandCoverage(coverageTable)`; the format-2 branch pushes
every `j` with `start <= j <= end` for each range in order. -/
def expandCoverage (coverageTable : CoverageTable) : List Nat :=
  if coverageTable.format = 1 then coverageTable.glyphs
  else (coverageTable.ranges.map fun range =>
    List.range' range.start (range.stop + 1 - range.start)).flatten

/-- The glyph list represented by a list of coverage ranges: the format-2 body
of `expandCoverage`. -/
def expandRanges (ranges : List CoverageRangeRecord) : List Nat :=
  (ranges.map fun range => List.range' range.start (range.stop + 1 - range.start)).flatten

/-- Total number of glyph ids covered by a list of ranges. -/
def rangesSize (ranges : List CoverageRangeRecord) : Nat :=
  (ranges.map fun range => range.stop + 1 - range.start).sum

/-! ## The Script → LangSys → Feature → Lookup graph

The `Layout` methods mutate a table tree held in `font.tables[tableName]`
through shared references.  The embedding passes the table slot
(`Option LayoutTable`, `none` = no table installed) explicitly: each method
returns the updated slot together with a *locator* for the subtree the
JavaScript method returns by reference (an index into the owning array, or
`(scriptIndex, Option langSysRecordIndex)` for language systems, where `none`
denotes the fixed `defaultLangSys` slot). -/

/-- LangSys subtree: `{reserved, reqFeatureIndex, featureIndexes}`. -/
structure LangSys where
  reserved : Nat
  reqFeatureIndex : Nat
  featureIndexes : List Nat
deriving DecidableEq, Inhabited

/-- `{tag, langSys}` record of a script's `langSysRecords` array. -/
structure LangSysRecord where
  tag : String
  langSys : LangSys
deriving DecidableEq, Inhabited

/-- Script subtree: `{defaultLangSys, langSysRecords}`. -/
structure ScriptTable where
  defaultLangSys : LangSys
  langSysRecords : List LangSysRecord
deriving DecidableEq, Inhabited

/-- `{tag, script}` record of the layout table's `scripts` array. -/
structure ScriptRecord where
  tag : String
  script : ScriptTable
deriving DecidableEq, Inhabited

/-- Feature subtree: `{params, lookupListIndexes}`. -/
structure FeatureTable where
  params : Nat
  lookupListIndexes : List Nat
deriving DecidableEq, Inhabited

/-- `{tag, feature}` record of the global `features` array. -/
structure FeatureRecord where
  tag : String
  feature : FeatureTable
deriving DecidableEq, Inhabited

/-- Lookup table `{lookupType, lookupFlag, subtables, markFilteringSet}`.  The
claims never inspect the contents of a subtable, only the (initially empty)
list itself, so subtables are modelled as opaque units; `markFilteringSet` is
`undefined` (`none`) on the create path. -/
structure LookupTable where
  lookupType : Nat
  lookupFlag : Nat
  subtables : List Unit
  markFilteringSet : Option Nat
deriving DecidableEq, Inhabited

/-- The GSUB/GPOS-style layout table: `{scripts, features, lookups}`. -/
structure LayoutTable where
  scripts : List ScriptRecord
  features : List FeatureRecord
  lookups : List LookupTable
deriving DecidableEq, Inhabited

/-- Modelled from the spec: `createDefaultTable` is supplied by the
table-specific subclass (not under `src/`); the spec says `getTable(create)`
"installs and returns a freshly default-initialized empty table (empty
script/feature/lookup lists)". -/
def createDefaultTable : LayoutTable := ⟨[], [], []⟩

/-- Source: `Layout.getTable(create)`.  First component: the updated
`font.tables[tableName]` slot; second: the value the method returns. -/
def getTable (tables : Option LayoutTable) (create : Bool) :
    Option LayoutTable × Option LayoutTable :=
  match tables with
  | some layout => (some layout, some layout)
  | none =>
    if create then (some createDefaultTable, some createDefaultTable) else (none, none)

/-- Body of `Layout.getScriptTable` once its call to `getTable` has been
resolved. -/
def getScriptTableGo :
    Option LayoutTable × Option LayoutTable → String → Bool →
      Option LayoutTable × Option Nat
  | (tables', none), _, _ => (tables', none)
  | (_, some layout), script, create =>
    let pos := searchTag (fun r => r.tag) default layout.scripts script
    if pos ≥ 0 then (some layout, some pos.toNat)
    else if create then
      let scr : ScriptRecord := ⟨script, ⟨⟨0, 0xffff, []⟩, []⟩⟩
      (some { layout with scripts := spliceInsert layout.scripts (-1 - pos).toNat scr },
        some (-1 - pos).toNat)
    else (some layout, none)

/-- Source: `Layout.getScriptTable(script, create)`.  The locator is the index
of the script record whose `script` subtree the method returns. -/
def getScriptTable (tables : Option LayoutTable) (script : String) (create : Bool) :
    Option LayoutTable × Option Nat :=
  getScriptTableGo (getTable tables create) script create

/-- The create path of `getLangSysTable`: splice a langSys record into
`scripts[si].script.langSysRecords` at position `idx`. -/
def spliceLangSys (layout : LayoutTable) (si idx : Nat) (lrec : LangSysRecord) : LayoutTable :=
  let srec := layout.scripts.getD si default
  let scriptTable' :=
    { srec.script with langSysRecords := spliceInsert srec.script.langSysRecords idx lrec }
  { layout with scripts := layout.scripts.set si { srec with script := scriptTable' } }

/-- Body of `Layout.getLangSysTable` once its call to `getScriptTable` has
been resolved to a slot/locator pair. -/
def getLangSysTableGo :
    Option LayoutTable × Option Nat → String → Bool →
      Option LayoutTable × Option (Nat × Option Nat)
  | (tables', none), _, _ => (tables', none)
  | (none, some _), _, _ => (none, none)
  | (some layout, some si), language, create =>
    let scriptTable := (layout.scripts.getD si default).script
    if language = "dflt" ∨ language = "DFLT" then (some layout, some (si, none))
    else
      let pos := searchTag (fun r => r.tag) default scriptTable.langSysRecords language
      if pos ≥ 0 then (some layout, some (si, some pos.toNat))
      else if create then
        let langSysRecord : LangSysRecord := ⟨language, ⟨0, 0xffff, []⟩⟩
        (some (spliceLangSys layout si (-1 - pos).toNat langSysRecord),
          some (si, some (-1 - pos).toNat))
      else (some layout, none)

/-- Source: `Layout.getLangSysTable(script, language, create)`.  Locator
`(si, none)` denotes `scripts[si].script.defaultLangSys`; `(si, some j)`
denotes `scripts[si].script.langSysRecords[j].langSys`. -/
def getLangSysTable (tables : Option LayoutTable) (script language : String) (create : Bool) :
    Option LayoutTable × Option (Nat × Option Nat) :=
  getLangSysTableGo (getScriptTable tables script create) language create

/-- Dereference a LangSys locator. -/
def lookupLangSys (layout : LayoutTable) (loc : Nat × Option Nat) : LangSys :=
  match loc.2 with
  | none => ((layout.scripts.getD loc.1 default).script).defaultLangSys
  | some j => (((layout.scripts.getD loc.1 default).script).langSysRecords.getD j default).langSys

/-- Write through a LangSys locator (the JavaScript mutation of the shared
`langSysTable` reference). -/
def setLangSysAt (layout : LayoutTable) (loc : Nat × Option Nat) (ls : LangSys) : LayoutTable :=
  let srec := layout.scripts.getD loc.1 default
  let scriptTable' :=
    match loc.2 with
    | none => { srec.script with defaultLangSys := ls }
    | some j =>
      let lrec' := { srec.script.langSysRecords.getD j default with langSys := ls }
      { srec.script with langSysRecords := srec.script.langSysRecords.set j lrec' }
  { layout with scripts := layout.scripts.set loc.1 { srec with script := scriptTable' } }

/-- Body of `Layout.getFeatureTable` once its call to `getLangSysTable` has
been resolved.  `check.assert` (not under `src/`) is modelled from the spec as
failing loudly: the `Except.error` carries the assertion message and the table
state at the moment of the throw.  The locator is the index into the global
`features` array of the record whose `feature` subtree the method returns. -/
def getFeatureTableGo :
    Option LayoutTable × Option (Nat × Option Nat) → String → Bool →
      Except (String × Option LayoutTable) (Option LayoutTable × Option Nat)
  | (tables', none), _, _ => .ok (tables', none)
  | (none, some _), _, _ => .ok (none, none)
  | (some layout, some loc), feature, create =>
    let langSysTable := lookupLangSys layout loc
    match langSysTable.featureIndexes.find?
        (fun idx => (layout.features.getD idx default).tag == feature) with
    | some idx => .ok (some layout, some idx)
    | none =>
      if create then
        let index := layout.features.length
        if index = 0 ∨ feature ≥ (layout.features.getD (index - 1) default).tag then
          let featureRecord : FeatureRecord := ⟨feature, ⟨0, []⟩⟩
          let withFeature := { layout with features := layout.features ++ [featureRecord] }
          let langSys' := { langSysTable with featureIndexes := langSysTable.featureIndexes ++ [index] }
          let layout' := setLangSysAt withFeature loc langSys'
          .ok (some layout', some index)
        else .error ("Features must be added in alphabetical order.", some layout)
      else .ok (some layout, none)

/-- Source: `Layout.getFeatureTable(script, language, feature, create)`. -/
def getFeatureTable (tables : Option LayoutTable) (script language feature : String)
    (create : Bool) :
    Except (String × Option LayoutTable) (Option LayoutTable × Option Nat) :=
  getFeatureTableGo (getLangSysTable tables script language create) feature create

/-- Body of `Layout.getLookupTables` once its call to `getFeatureTable` has
been resolved. -/
def getLookupTablesGo :
    Except (String × Option LayoutTable) (Option LayoutTable × Option Nat) → Nat → Bool →
      Except (String × Option LayoutTable) (Option LayoutTable × List LookupTable)
  | .error e, _, _ => .error e
  | .ok (tables', none), _, _ => .ok (tables', [])
  | .ok (none, some _), _, _ => .ok (none, [])
  | .ok (some layout, some fi), lookupType, create =>
    let featureTable := (layout.features.getD fi default).feature
    let tabs := featureTable.lookupListIndexes.filterMap
      (fun idx =>
        let lookupTable := layout.lookups.getD idx default
        if lookupTable.lookupType = lookupType then some lookupTable else none)
    if tabs.length = 0 ∧ create = true then
      let lookupTable : LookupTable := ⟨lookupType, 0, [], none⟩
      let index := layout.lookups.length
      let featureTable' :=
        { featureTable with lookupListIndexes := featureTable.lookupListIndexes ++ [index] }
      let frec' := { layout.features.getD fi default with feature := featureTable' }
      let layout' := { layout with
        lookups := layout.lookups ++ [lookupTable],
        features := layout.features.set fi frec' }
      .ok (some layout', [lookupTable])
    else .ok (some layout, tabs)

/-- Source: `Layout.getLookupTables(script, language, feature, lookupType,
create)`.  Returns the list of matching lookup tables (`[]` on every not-found
path), propagating a feature-ordering assertion failure. -/
def getLookupTables (tables : Option LayoutTable) (script language feature : String)
    (lookupType : Nat) (create : Bool) :
    Except (String × Option LayoutTable) (Option LayoutTable × List LookupTable) :=
  getLookupTablesGo (getFeatureTable tables script language feature create) lookupType create

/-! ## Binary structure decoder and the GDEF table codec

The generic decoder (`parse.js`) is not among the sources provided; its
primitives are modelled from the spec ("Binary Structure Decoder": stateful
cursor over a fully loaded buffer, big-endian fields, 16-bit offsets with the
null-pointer convention, count-prefixed lists, fail-fast on unsupported
discriminants).  `parseGDEFTable` and its sub-structure decoders are embedded
from `src/tables/gdef.js`. -/

/-- Modelled from the spec: decoder state — the buffer, the absolute start of
the enclosing structure (`offset`) and the cursor within it
(`relativeOffset`). -/
structure Parser where
  data : List Nat
  offset : Nat
  relativeOffset : Nat
deriving DecidableEq, Inhabited

/-- Modelled from the spec: read one big-endian `uint16` at the cursor and
advance by two bytes; reading past the end of the buffer aborts the parse. -/
def parseUShort (p : Parser) : Except String (Nat × Parser) :=
  match p.data.get? (p.offset + p.relativeOffset),
      p.data.get? (p.offset + p.relativeOffset + 1) with
  | some b0, some b1 =>
    .ok (b0 * 256 + b1, { p with relativeOffset := p.relativeOffset + 2 })
  | _, _ => .error "unexpected end of data"

/-- Modelled from the spec: read one big-endian `int16` (two's complement). -/
def parseShort (p : Parser) : Except String (Int × Parser) := do
  let (u, p') ← parseUShort p
  .ok (if u ≥ 0x8000 then (u : Int) - 0x10000 else (u : Int), p')

/-- Modelled from the spec: `readVersion16Dot16` composes a 16-bit major and a
16-bit minor into a comparable version number; with minor base `b` the
JavaScript value is `major + minor / b / 10`.  To stay in exact arithmetic the
embedding returns that number scaled by `10 * b`: with the base `1` used by
the GDEF parser, version 1.0 is `10`, version 1.2 is `12`, version 1.3 is
`13`, and the JavaScript comparisons `=== 1 / === 1.2 / === 1.3 / >= 1.2`
become `= 10 / = 12 / = 13 / ≥ 12` exactly. -/
def parseVersion (minorBase : Nat) (p : Parser) : Except String (Nat × Parser) := do
  let (major, p) ← parseUShort p
  let (minor, p) ← parseUShort p
  .ok (major * (10 * minorBase) + minor, p)

/-- Modelled from the spec: read a 16-bit offset; `0` is the null pointer and
decodes to absent (`none`) without invoking the sub-decoder; otherwise the
sub-decoder runs at `offset` relative to the start of the enclosing structure
and the outer cursor resumes just past the offset field. -/
def parsePointer {A : Type} (sub : Parser → Except String (A × Parser)) (p : Parser) :
    Except String (Option A × Parser) :=
  match parseUShort p with
  | .error e => .error e
  | .ok (structOffset, p') =>
    if structOffset > 0 then
      match sub { data := p.data, offset := p.offset + structOffset, relativeOffset := 0 } with
      | .error e => .error e
      | .ok (a, _) => .ok (some a, p')
    else .ok (none, p')

/-- Helper for `parseList`: run the element decoder `n` times. -/
def parseListGo {A : Type} (sub : Parser → Except String (A × Parser)) :
    Nat → Parser → Except String (List A × Parser)
  | 0, p => .ok ([], p)
  | n + 1, p => do
    let (a, p) ← sub p
    let (as, p) ← parseListGo sub n p
    .ok (a :: as, p)

/-- Modelled from the spec: `readList` reads a 16-bit count then that many
elements in order with the supplied element decoder. -/
def parseList {A : Type} (sub : Parser → Except String (A × Parser)) (p : Parser) :
    Except String (List A × Parser) := do
  let (count, p) ← parseUShort p
  parseListGo sub count p

/-- Modelled from the spec: one `{start, end, index}` coverage range record. -/
def parseCoverageRange (p : Parser) : Except String (CoverageRangeRecord × Parser) := do
  let (s, p) ← parseUShort p
  let (e, p) ← parseUShort p
  let (i, p) ← parseUShort p
  .ok (⟨s, e, i⟩, p)

/-- Modelled from the spec: `parseCoverage` (the `Parser.coverage` sub-decoder)
reads the format discriminant, then the glyph list (format 1) or the range
records (format 2); any other discriminant aborts the parse. -/
def parseCoverage (p : Parser) : Except String (CoverageTable × Parser) := do
  let (format, p) ← parseUShort p
  if format = 1 then do
    let (glyphs, p) ← parseList parseUShort p
    .ok (⟨1, glyphs, []⟩, p)
  else if format = 2 then do
    let (ranges, p) ← parseList parseCoverageRange p
    .ok (⟨2, [], ranges⟩, p)
  else .error "unsupported coverage format"

/-- Modelled from the spec: one `{start, end, classId}` class range record. -/
def parseClassRange (p : Parser) : Except String (ClassRangeRecord × Parser) := do
  let (s, p) ← parseUShort p
  let (e, p) ← parseUShort p
  let (c, p) ← parseUShort p
  .ok (⟨s, e, c⟩, p)

/-- Modelled from the spec: `parseClassDef` (the `Parser.classDef`
sub-decoder): format 1 reads `startGlyph` and the class list, format 2 the
range records; any other discriminant aborts the parse. -/
def parseClassDef (p : Parser) : Except String (ClassDefTable × Parser) := do
  let (format, p) ← parseUShort p
  if format = 1 then do
    let (startGlyph, p) ← parseUShort p
    let (classes, p) ← parseList parseUShort p
    .ok (⟨1, startGlyph, classes, []⟩, p)
  else if format = 2 then do
    let (ranges, p) ← parseList parseClassRange p
    .ok (⟨2, 0, [], ranges⟩, p)
  else .error "unsupported class definition format"

/-- Source: gdef.js `attachList` — a coverage pointer plus, per covered glyph,
a pointer to a list of contour point indices. -/
structure AttachList where
  coverage : Option CoverageTable
  attachPoints : List (Option (List Nat))
deriving DecidableEq, Inhabited

/-- Source: gdef.js `attachList`. -/
def parseAttachList (p : Parser) : Except String (AttachList × Parser) := do
  let (coverage, p) ← parsePointer parseCoverage p
  let (attachPoints, p) ← parseList (parsePointer (parseList parseUShort)) p
  .ok (⟨coverage, attachPoints⟩, p)

/-- Source: gdef.js `caretValue` — format 1 and (device tables being
unsupported) format 3 carry a coordinate, format 2 a contour point index. -/
inductive CaretValue where
  | coordinate : Int → CaretValue
  | pointindex : Int → CaretValue
deriving DecidableEq, Inhabited

/-- Source: gdef.js `caretValue`. -/
def parseCaretValue (p : Parser) : Except String (CaretValue × Parser) := do
  let (format, p) ← parseUShort p
  if format = 1 ∨ format = 2 ∨ format = 3 then
    if format = 1 then do
      let (c, p) ← parseShort p
      .ok (.coordinate c, p)
    else if format = 2 then do
      let (i, p) ← parseShort p
      .ok (.pointindex i, p)
    else do
      let (c, p) ← parseShort p
      .ok (.coordinate c, p)
  else .error "Unsupported CaretValue table version."

/-- Source: gdef.js `ligGlyph` — a list of caret value pointers. -/
def parseLigGlyph (p : Parser) : Except String (List (Option CaretValue) × Parser) :=
  parseList (parsePointer parseCaretValue) p

/-- Source: gdef.js `ligCaretList`. -/
structure LigCaretList where
  coverage : Option CoverageTable
  ligGlyphs : List (Option (List (Option CaretValue)))
deriving DecidableEq, Inhabited

/-- Source: gdef.js `ligCaretList`. -/
def parseLigCaretList (p : Parser) : Except String (LigCaretList × Parser) := do
  let (coverage, p) ← parsePointer parseCoverage p
  let (ligGlyphs, p) ← parseList (parsePointer parseLigGlyph) p
  .ok (⟨coverage, ligGlyphs⟩, p)

/-- Source: gdef.js `markGlyphSets` — skip the 16-bit version field, then a
list of coverage pointers. -/
def parseMarkGlyphSets (p : Parser) : Except String (List (Option CoverageTable) × Parser) := do
  let (_, p) ← parseUShort p
  parseList (parsePointer parseCoverage) p

/-- Decoded GDEF table.  `version` is ten times the JavaScript number (`10`,
`12` or `13`).  The JavaScript object receives a `markGlyphSets` property only
when the version is at least 1.2; the outer `Option` distinguishes "no such
field" (`none`, version 1.0) from "field present but `undefined`"
(`some none`, a null pointer at version ≥ 1.2). -/
structure GDEFTable where
  version : Nat
  classDef : Option ClassDefTable
  attachList : Option AttachList
  ligCaretList : Option LigCaretList
  markAttachClassDef : Option ClassDefTable
  markGlyphSets : Option (Option (List (Option CoverageTable)))
deriving DecidableEq, Inhabited

/-- Source: gdef.js `parseGDEFTable(data, start)`. -/
def parseGDEFTable (data : List Nat) (start : Nat) : Except String GDEFTable :=
  match parseVersion 1 ⟨data, start, 0⟩ with
  | .error e => .error e
  | .ok (tableVersion, p) =>
    if tableVersion = 10 ∨ tableVersion = 12 ∨ tableVersion = 13 then
      match parsePointer parseClassDef p with
      | .error e => .error e
      | .ok (classDef, p) =>
        match parsePointer parseAttachList p with
        | .error e => .error e
        | .ok (attachList, p) =>
          match parsePointer parseLigCaretList p with
          | .error e => .error e
          | .ok (ligCaretList, p) =>
            match parsePointer parseClassDef p with
            | .error e => .error e
            | .ok (markAttachClassDef, p) =>
              if tableVersion ≥ 12 then
                match parsePointer parseMarkGlyphSets p with
                | .error e => .error e
                | .ok (mgs, _) =>
                  .ok ⟨tableVersion, classDef, attachList, ligCaretList,
                    markAttachClassDef, some mgs⟩
              else
                .ok ⟨tableVersion, classDef, attachList, ligCaretList,
                  markAttachClassDef, none⟩
    else .error "Unsupported GDEF table version."

/-- Claim C2's invariant: the script array and every `langSysRecords` array are
strictly ascending by tag. -/
def ScriptsSorted (layout : LayoutTable) : Prop :=
  List.Pairwise (fun a b : ScriptRecord => a.tag < b.tag) layout.scripts ∧
  ∀ r ∈ layout.scripts,
    List.Pairwise (fun a b : LangSysRecord => a.tag < b.tag) r.script.langSysRecords

/-- The invariant on the (possibly absent) table slot. -/
def TablesSorted : Option LayoutTable → Prop
  | none => True
  | some layout => ScriptsSorted layout

/-- The table state after a `getFeatureTable`/`getLookupTables` call, also on
the throwing path (JavaScript exceptions do not roll the tree back). -/
def exceptState {β : Type} :
    Except (String × Option LayoutTable) (Option LayoutTable × β) → Option LayoutTable
  | .error (_, t) => t
  | .ok (t, _) => t

/-! ## Theorems -/

theorem tagLtb_iff (a b : String) : tagLtb a b = true ↔ a < b := by
  unfold tagLtb
  rw [decide_eq_true_iff]
  exact String.lt_iff_toList_lt.symm

/-- A sorted `Pairwise` list relates earlier `getD` entries to later in-bounds ones. -/
theorem pairwise_getD {α : Type} {R : α → α → Prop} {arr : List α} (hp : List.Pairwise R arr)
    (d : α) (i j : Nat) (hij : i < j) (hj : j < arr.length) :
    R (arr.getD i d) (arr.getD j d) := by
  rw [List.getD_eq_getElem arr d (Nat.lt_trans hij hj), List.getD_eq_getElem arr d hj]
  exact List.pairwise_iff_getElem.mp hp i j (Nat.lt_trans hij hj) hj hij

/-- Main invariant lemma for the binary-search loop: starting from a bracket
`[iMin, iMax]` outside of which all keys are already known to be smaller
(below) resp. larger (above) than `key`, the loop either returns the index of an
entry whose key is `key`, or `-m - 1` where `m` splits the array into keys below
`key` and keys above `key`. -/
theorem bsearchGo_spec {α K : Type} [LinearOrder K] (keyOf : α → K) (keyEq keyLt : K → K → Bool)
    (hEq : ∀ a b, keyEq a b = true ↔ a = b) (hLt : ∀ a b, keyLt a b = true ↔ a < b)
    (d : α) (arr : List α) (key : K)
    (hsort : ∀ i j : Nat, i < j → j < arr.length → keyOf (arr.getD i d) < keyOf (arr.getD j d)) :
    ∀ (fuel : Nat) (iMin iMax : Int), (iMax + 1 - iMin).toNat < fuel →
      0 ≤ iMin → iMin ≤ iMax + 1 → iMax < (arr.length : Int) →
      (∀ k : Nat, k < arr.length → (k : Int) < iMin → keyOf (arr.getD k d) < key) →
      (∀ k : Nat, k < arr.length → iMax < (k : Int) → key < keyOf (arr.getD k d)) →
      (∃ i : Nat, i < arr.length ∧ bsearchGo keyOf keyEq keyLt d arr key fuel iMin iMax = (i : Int)
        ∧ keyOf (arr.getD i d) = key)
      ∨ (∃ m : Nat, bsearchGo keyOf keyEq keyLt d arr key fuel iMin iMax = -(m : Int) - 1
        ∧ m ≤ arr.length
        ∧ (∀ k : Nat, k < arr.length → k < m → keyOf (arr.getD k d) < key)
        ∧ (∀ k : Nat, k < arr.length → m ≤ k → key < keyOf (arr.getD k d))) := by
  intro fuel
  induction fuel with
  | zero => intro iMin iMax hfuel _ _ _ _ _; omega
  | succ fuel ih =>
    intro iMin iMax hfuel h0 hle hlen hlo hhi
    rw [bsearchGo]
    by_cases hcase : iMin ≤ iMax
    · rw [if_pos hcase]
      have hmid1 : iMin ≤ (iMin + iMax) / 2 := by omega
      have hmid2 : (iMin + iMax) / 2 ≤ iMax := by omega
      have hmidlt : ((iMin + iMax) / 2).toNat < arr.length := by omega
      by_cases heq : keyEq (keyOf (arr.getD ((iMin + iMax) / 2).toNat d)) key = true
      · rw [if_pos heq]
        left
        refine ⟨((iMin + iMax) / 2).toNat, hmidlt, by omega, (hEq _ _).mp heq⟩
      · rw [if_neg heq]
        by_cases hlt : keyLt (keyOf (arr.getD ((iMin + iMax) / 2).toNat d)) key = true
        · rw [if_pos hlt]
          have hval : keyOf (arr.getD ((iMin + iMax) / 2).toNat d) < key := (hLt _ _).mp hlt
          refine ih ((iMin + iMax) / 2 + 1) iMax (by omega) (by omega) (by omega) hlen ?_ hhi
          intro k hk hklt
          rcases Nat.lt_or_ge k ((iMin + iMax) / 2).toNat with h | h
          · exact lt_trans (hsort k _ h hmidlt) hval
          · have : k = ((iMin + iMax) / 2).toNat := by omega
            rw [this]; exact hval
        · rw [if_neg hlt]
          have hne : keyOf (arr.getD ((iMin + iMax) / 2).toNat d) ≠ key := fun h =>
            heq ((hEq _ _).mpr h)
          have hnlt : ¬ keyOf (arr.getD ((iMin + iMax) / 2).toNat d) < key := fun h =>
            hlt ((hLt _ _).mpr h)
          have hval : key < keyOf (arr.getD ((iMin + iMax) / 2).toNat d) :=
            lt_of_le_of_ne (le_of_not_lt hnlt) (Ne.symm hne)
          refine ih iMin ((iMin + iMax) / 2 - 1) (by omega) h0 (by omega) (by omega) hlo ?_
          intro k hk hkgt
          rcases Nat.lt_or_ge ((iMin + iMax) / 2).toNat k with h | h
          · exact lt_trans hval (hsort _ k h hk)
          · have : k = ((iMin + iMax) / 2).toNat := by omega
            rw [this]; exact hval
    · rw [if_neg hcase]
      right
      refine ⟨iMin.toNat, by omega, by omega, ?_, ?_⟩
      · intro k hk hkm
        exact hlo k hk (by omega)
      · intro k hk hkm
        exact hhi k hk (by omega)

/-- Correctness of `searchTag` on an array whose tags are strictly ascending:
either it returns the index of the record with the requested tag, or
`-m - 1` where `m` separates smaller from larger tags. -/
theorem searchTag_spec {α : Type} (tagOf : α → String) (d : α) (arr : List α) (tag : String)
    (hsort : List.Pairwise (fun a b => tagOf a < tagOf b) arr) :
    (∃ i : Nat, i < arr.length ∧ searchTag tagOf d arr tag = (i : Int)
      ∧ tagOf (arr.getD i d) = tag)
    ∨ (∃ m : Nat, searchTag tagOf d arr tag = -(m : Int) - 1
      ∧ m ≤ arr.length
      ∧ (∀ k : Nat, k < arr.length → k < m → tagOf (arr.getD k d) < tag)
      ∧ (∀ k : Nat, k < arr.length → m ≤ k → tag < tagOf (arr.getD k d))) := by
  exact bsearchGo_spec tagOf (fun a b => a == b) tagLtb (fun a b => beq_iff_eq) tagLtb_iff
    d arr tag (fun i j hij hj => pairwise_getD hsort d i j hij hj)
    (arr.length + 1) 0 ((arr.length : Int) - 1) (by omega) (by omega) (by omega) (by omega)
    (by intro k _ hk; omega) (by intro k hk hgt; omega)

/-- Correctness of `binSearch` on a strictly ascending list of numbers. -/
theorem binSearch_spec (arr : List Nat) (value : Nat)
    (hsort : List.Pairwise (fun a b => a < b) arr) :
    (∃ i : Nat, i < arr.length ∧ binSearch arr value = (i : Int) ∧ arr.getD i 0 = value)
    ∨ (∃ m : Nat, binSearch arr value = -(m : Int) - 1
      ∧ m ≤ arr.length
      ∧ (∀ k : Nat, k < arr.length → k < m → arr.getD k 0 < value)
      ∧ (∀ k : Nat, k < arr.length → m ≤ k → value < arr.getD k 0)) := by
  exact bsearchGo_spec id (fun a b => a == b) (fun a b => decide (a < b))
    (fun a b => beq_iff_eq) (fun a b => decide_eq_true_iff)
    0 arr value (fun i j hij hj => pairwise_getD hsort 0 i j hij hj)
    (arr.length + 1) 0 ((arr.length : Int) - 1) (by omega) (by omega) (by omega) (by omega)
    (by intro k _ hk; omega) (by intro k hk hgt; omega)

/-- Inserting an element at a position that separates smaller from larger
entries preserves a transitive pairwise ordering. -/
theorem spliceInsert_pairwise {α : Type} {R : α → α → Prop}
    (htrans : ∀ a b c, R a b → R b c → R a c)
    (arr : List α) (d : α) (x : α) (m : Nat) (_hm : m ≤ arr.length)
    (hp : List.Pairwise R arr)
    (hlo : ∀ k, k < arr.length → k < m → R (arr.getD k d) x)
    (hhi : ∀ k, k < arr.length → m ≤ k → R x (arr.getD k d)) :
    List.Pairwise R (spliceInsert arr m x) := by
  unfold spliceInsert
  rw [List.pairwise_append]
  have hmemtake : ∀ a ∈ arr.take m, R a x := by
    intro a ha
    rcases List.mem_iff_getElem.mp ha with ⟨k, hk, hak⟩
    have hk' : k < m ⊓ arr.length := by simpa [List.length_take] using hk
    have hk2 : k < arr.length := by omega
    have htk : (arr.take m)[k] = arr[k] := List.getElem_take arr
    rw [htk] at hak
    have := hlo k (by omega) (by omega)
    rwa [List.getD_eq_getElem arr d hk2, hak] at this
  have hmemdrop : ∀ b ∈ arr.drop m, R x b := by
    intro b hb
    rcases List.mem_iff_getElem.mp hb with ⟨j, hj, hbj⟩
    have hj' : j < arr.length - m := by simpa [List.length_drop] using hj
    have hj2 : m + j < arr.length := by omega
    have htd : (arr.drop m)[j] = arr[m + j] := List.getElem_drop arr
    rw [htd] at hbj
    have := hhi (m + j) (by omega) (by omega)
    rwa [List.getD_eq_getElem arr d hj2, hbj] at this
  refine ⟨List.Pairwise.sublist (List.take_sublist m arr) hp, ?_, ?_⟩
  · rw [List.pairwise_cons]
    exact ⟨hmemdrop, List.Pairwise.sublist (List.drop_sublist m arr) hp⟩
  · intro a ha b hb
    rcases List.mem_cons.mp hb with rfl | hb'
    · exact hmemtake a ha
    · exact htrans a x b (hmemtake a ha) (hmemdrop b hb')

/-- Invariant lemma for the `searchRange` loop, mirroring `bsearchGo_spec`. -/
theorem searchRangeGo_spec {α : Type} (startOf : α → Nat) (d : α) (ranges : List α) (value : Nat)
    (hsort : ∀ i j : Nat, i < j → j < ranges.length →
      startOf (ranges.getD i d) < startOf (ranges.getD j d)) :
    ∀ (fuel : Nat) (iMin iMax : Int), (iMax + 1 - iMin).toNat < fuel →
      0 ≤ iMin → iMin ≤ iMax + 1 → iMax < (ranges.length : Int) →
      (∀ k : Nat, k < ranges.length → (k : Int) < iMin → startOf (ranges.getD k d) < value) →
      (∀ k : Nat, k < ranges.length → iMax < (k : Int) → value < startOf (ranges.getD k d)) →
      (∃ i : Nat, i < ranges.length
        ∧ searchRangeGo startOf d ranges value fuel iMin iMax = .inl (ranges.getD i d)
        ∧ startOf (ranges.getD i d) = value)
      ∨ (∃ m : Nat, searchRangeGo startOf d ranges value fuel iMin iMax = .inr (m : Int)
        ∧ m ≤ ranges.length
        ∧ (∀ k : Nat, k < ranges.length → k < m → startOf (ranges.getD k d) < value)
        ∧ (∀ k : Nat, k < ranges.length → m ≤ k → value < startOf (ranges.getD k d))) := by
  intro fuel
  induction fuel with
  | zero => intro iMin iMax hfuel _ _ _ _ _; omega
  | succ fuel ih =>
    intro iMin iMax hfuel h0 hle hlen hlo hhi
    rw [searchRangeGo]
    by_cases hcase : iMin ≤ iMax
    · rw [if_pos hcase]
      have hmid1 : iMin ≤ (iMin + iMax) / 2 := by omega
      have hmid2 : (iMin + iMax) / 2 ≤ iMax := by omega
      have hmidlt : ((iMin + iMax) / 2).toNat < ranges.length := by omega
      by_cases heq : startOf (ranges.getD ((iMin + iMax) / 2).toNat d) = value
      · rw [if_pos heq]
        left
        exact ⟨((iMin + iMax) / 2).toNat, hmidlt, rfl, heq⟩
      · rw [if_neg heq]
        by_cases hlt : startOf (ranges.getD ((iMin + iMax) / 2).toNat d) < value
        · rw [if_pos hlt]
          refine ih ((iMin + iMax) / 2 + 1) iMax (by omega) (by omega) (by omega) hlen ?_ hhi
          intro k hk hklt
          rcases Nat.lt_or_ge k ((iMin + iMax) / 2).toNat with h | h
          · exact lt_trans (hsort k _ h hmidlt) hlt
          · have : k = ((iMin + iMax) / 2).toNat := by omega
            rw [this]; exact hlt
        · rw [if_neg hlt]
          have hval : value < startOf (ranges.getD ((iMin + iMax) / 2).toNat d) := by omega
          refine ih iMin ((iMin + iMax) / 2 - 1) (by omega) h0 (by omega) (by omega) hlo ?_
          intro k hk hkgt
          rcases Nat.lt_or_ge ((iMin + iMax) / 2).toNat k with h | h
          · exact lt_trans hval (hsort _ k h hk)
          · have : k = ((iMin + iMax) / 2).toNat := by omega
            rw [this]; exact hval
    · rw [if_neg hcase]
      right
      refine ⟨iMin.toNat, by rw [Int.toNat_of_nonneg h0], by omega, ?_, ?_⟩
      · intro k hk hkm
        exact hlo k hk (by omega)
      · intro k hk hkm
        exact hhi k hk (by omega)

/-- Correctness of `searchRange` over ascending, non-overlapping, well-formed
ranges: a value inside some range finds exactly that range, and a value inside
no range yields one of the two falsy results. -/
theorem searchRange_spec {α : Type} (startOf endOf : α → Nat) (d : α) (ranges : List α)
    (value : Nat)
    (hse : ∀ i, i < ranges.length → startOf (ranges.getD i d) ≤ endOf (ranges.getD i d))
    (hnov : ∀ i j, i < j → j < ranges.length →
      endOf (ranges.getD i d) < startOf (ranges.getD j d)) :
    (∀ i, i < ranges.length → startOf (ranges.getD i d) ≤ value →
      value ≤ endOf (ranges.getD i d) →
      searchRange startOf endOf d ranges value = .found (ranges.getD i d))
    ∧ ((∀ i, i < ranges.length →
        ¬(startOf (ranges.getD i d) ≤ value ∧ value ≤ endOf (ranges.getD i d))) →
      searchRange startOf endOf d ranges value = .zero
        ∨ searchRange startOf endOf d ranges value = .missing) := by
  have hsort : ∀ i j : Nat, i < j → j < ranges.length →
      startOf (ranges.getD i d) < startOf (ranges.getD j d) := by
    intro i j hij hj
    exact lt_of_le_of_lt (hse i (Nat.lt_trans hij hj)) (hnov i j hij hj)
  have hmain := searchRangeGo_spec startOf d ranges value hsort
    (ranges.length + 1) 0 ((ranges.length : Int) - 1) (by omega) (by omega) (by omega) (by omega)
    (by intro k _ h; omega) (by intro k hk h; omega)
  constructor
  · intro i hi hs he
    rcases hmain with ⟨j, hj, hgo, hsj⟩ | ⟨m, hgo, hm, hpre, hsuf⟩
    · have hij : i = j := by
        by_contra hne
        rcases Nat.lt_or_ge i j with h | h
        · have h1 := hnov i j h hj
          omega
        · have hji : j < i := by omega
          have h1 := hnov j i hji hi
          have h2 := hse j hj
          omega
      rw [hij]
      simp only [searchRange, hgo]
    · have him : i < m := by
        by_contra h
        have := hsuf i hi (by omega)
        omega
      have hieq : i = m - 1 := by
        by_contra hne
        have hi1 : i + 1 < m := by omega
        have h1 := hpre (i + 1) (by omega) hi1
        have h2 := hnov i (i + 1) (by omega) (by omega)
        omega
      have htn : ((m : Int) - 1).toNat = m - 1 := by omega
      simp only [searchRange, hgo, htn]
      rw [← hieq]
      rw [if_pos (by omega : (m : Int) > 0), if_neg (by omega : ¬ value > endOf (ranges.getD i d))]
  · intro hnone
    rcases hmain with ⟨j, hj, hgo, hsj⟩ | ⟨m, hgo, hm, hpre, hsuf⟩
    · exfalso
      exact hnone j hj ⟨by omega, by have := hse j hj; omega⟩
    · rcases Nat.eq_zero_or_pos m with hm0 | hmpos
      · right
        subst hm0
        simp only [searchRange, hgo]
        rw [if_neg (by omega : ¬ ((0 : Nat) : Int) > 0)]
      · left
        have hst : startOf (ranges.getD (m - 1) d) < value := hpre (m - 1) (by omega) (by omega)
        have hend : ¬ value ≤ endOf (ranges.getD (m - 1) d) := by
          intro h
          exact hnone (m - 1) (by omega) ⟨by omega, h⟩
        have htn : ((m : Int) - 1).toNat = m - 1 := by omega
        simp only [searchRange, hgo, htn]
        rw [if_pos (by omega : (m : Int) > 0), if_pos (by omega : value > endOf (ranges.getD (m - 1) d))]

theorem expandCoverage_eq_expandRanges (ct : CoverageTable) (h : ct.format ≠ 1) :
    expandCoverage ct = expandRanges ct.ranges := by
  simp [expandCoverage, expandRanges, h]

theorem length_expandRanges (ranges : List CoverageRangeRecord) :
    (expandRanges ranges).length = rangesSize ranges := by
  rw [expandRanges, List.length_flatten, List.map_map, rangesSize]
  congr 1
  apply List.map_congr_left
  intro r _
  simp [List.length_range']

theorem mem_expandRanges (ranges : List CoverageRangeRecord)
    (hse : ∀ r ∈ ranges, r.start ≤ r.stop) (g : Nat) :
    g ∈ expandRanges ranges ↔ ∃ r ∈ ranges, r.start ≤ g ∧ g ≤ r.stop := by
  rw [expandRanges, List.mem_flatten]
  constructor
  · rintro ⟨l, hl, hgl⟩
    rcases List.mem_map.mp hl with ⟨r, hr, rfl⟩
    have h1 := List.mem_range'_1.mp hgl
    have h2 := hse r hr
    exact ⟨r, hr, by omega, by omega⟩
  · rintro ⟨r, hr, h1, h2⟩
    refine ⟨_, List.mem_map_of_mem _ hr, List.mem_range'_1.mpr ?_⟩
    have := hse r hr
    omega

theorem pairwise_expandRanges (ranges : List CoverageRangeRecord)
    (hse : ∀ r ∈ ranges, r.start ≤ r.stop)
    (hnov : List.Pairwise (fun a b => a.stop < b.start) ranges) :
    List.Pairwise (fun a b => a < b) (expandRanges ranges) := by
  rw [expandRanges, List.pairwise_flatten]
  constructor
  · intro l hl
    rcases List.mem_map.mp hl with ⟨r, _, rfl⟩
    exact List.pairwise_lt_range' _ _
  · rw [List.pairwise_map]
    refine hnov.imp_of_mem ?_
    intro a b ha _ hab x hx y hy
    have h1 := List.mem_range'_1.mp hx
    have h2 := List.mem_range'_1.mp hy
    have h3 := hse a ha
    omega

/-- Decomposition of a position in the expanded glyph list: every index `k`
falls inside the block contributed by a unique range `i`, at offset
`k - rangesSize (take i)` from that range's start. -/
theorem expandRanges_getD (ranges : List CoverageRangeRecord)
    (hse : ∀ r ∈ ranges, r.start ≤ r.stop) :
    ∀ k, k < (expandRanges ranges).length →
      ∃ i, i < ranges.length ∧
        rangesSize (ranges.take i) ≤ k ∧
        (ranges.getD i default).start + (k - rangesSize (ranges.take i)) ≤
          (ranges.getD i default).stop ∧
        (expandRanges ranges).getD k 0 =
          (ranges.getD i default).start + (k - rangesSize (ranges.take i)) := by
  induction ranges with
  | nil =>
    intro k hk
    simp [expandRanges] at hk
  | cons r rs ih =>
    intro k hk
    have hser : r.start ≤ r.stop := hse r (List.mem_cons_self r rs)
    have hses : ∀ q ∈ rs, q.start ≤ q.stop := fun q hq => hse q (List.mem_cons_of_mem r hq)
    have hsplit : expandRanges (r :: rs) =
        List.range' r.start (r.stop + 1 - r.start) ++ expandRanges rs := by
      simp [expandRanges]
    have hlenr : (List.range' r.start (r.stop + 1 - r.start)).length = r.stop + 1 - r.start :=
      List.length_range' _ _ _
    have htake0 : rangesSize ((r :: rs).take 0) = 0 := rfl
    rcases Nat.lt_or_ge k (r.stop + 1 - r.start) with hlt | hge
    · refine ⟨0, by simp, by rw [htake0]; omega, ?_, ?_⟩
      · simp only [List.getD_cons_zero]
        rw [htake0]
        omega
      · rw [hsplit]
        rw [List.getD_append _ _ _ _ (by omega)]
        rw [List.getD_eq_getElem _ _ (by omega)]
        rw [List.getElem_range']
        simp only [List.getD_cons_zero]
        rw [htake0]
        omega
    · have hk' : k - (r.stop + 1 - r.start) < (expandRanges rs).length := by
        rw [hsplit, List.length_append, hlenr] at hk
        omega
      rcases ih hses (k - (r.stop + 1 - r.start)) hk' with ⟨i, hi, hle, hstop, hval⟩
      have htake : rangesSize ((r :: rs).take (i + 1)) =
          (r.stop + 1 - r.start) + rangesSize (rs.take i) := by
        simp [rangesSize, List.take]
      refine ⟨i + 1, by simpa using Nat.succ_lt_succ hi, by omega, ?_, ?_⟩
      · simp only [List.getD_cons_succ]
        rw [htake]
        have heq : k - ((r.stop + 1 - r.start) + rangesSize (rs.take i)) =
            k - (r.stop + 1 - r.start) - rangesSize (rs.take i) := by omega
        rw [heq]
        exact hstop
      · rw [hsplit]
        rw [List.getD_append_right _ _ _ _ (by omega)]
        rw [hlenr, hval, htake]
        simp only [List.getD_cons_succ]
        congr 1
        omega

/-- Inverse of `expandRanges_getD`: the glyph at offset `o` inside range `i`
sits at position `rangesSize (take i) + o` of the expanded list. -/
theorem expandRanges_getD_inv (ranges : List CoverageRangeRecord)
    (hse : ∀ r ∈ ranges, r.start ≤ r.stop) :
    ∀ i, i < ranges.length → ∀ o, (ranges.getD i default).start + o ≤ (ranges.getD i default).stop →
      rangesSize (ranges.take i) + o < (expandRanges ranges).length ∧
      (expandRanges ranges).getD (rangesSize (ranges.take i) + o) 0 =
        (ranges.getD i default).start + o := by
  induction ranges with
  | nil =>
    intro i hi
    simp at hi
  | cons r rs ih =>
    intro i hi o ho
    have hser : r.start ≤ r.stop := hse r (List.mem_cons_self r rs)
    have hses : ∀ q ∈ rs, q.start ≤ q.stop := fun q hq => hse q (List.mem_cons_of_mem r hq)
    have hsplit : expandRanges (r :: rs) =
        List.range' r.start (r.stop + 1 - r.start) ++ expandRanges rs := by
      simp [expandRanges]
    have hlenr : (List.range' r.start (r.stop + 1 - r.start)).length = r.stop + 1 - r.start :=
      List.length_range' _ _ _
    match i with
    | 0 =>
      simp only [List.getD_cons_zero] at ho ⊢
      have htake : rangesSize ((r :: rs).take 0) = 0 := rfl
      rw [htake]
      constructor
      · rw [hsplit, List.length_append, hlenr]
        omega
      · rw [hsplit]
        rw [List.getD_append _ _ _ _ (by omega)]
        rw [List.getD_eq_getElem _ _ (by omega)]
        rw [List.getElem_range']
        omega
    | i' + 1 =>
      simp only [List.getD_cons_succ] at ho ⊢
      have hi' : i' < rs.length := by simpa using hi
      rcases ih hses i' hi' o ho with ⟨hlen, hval⟩
      have htake : rangesSize ((r :: rs).take (i' + 1)) =
          (r.stop + 1 - r.start) + rangesSize (rs.take i') := by
        simp [rangesSize, List.take]
      rw [htake]
      constructor
      · rw [hsplit, List.length_append, hlenr]
        omega
      · rw [hsplit]
        rw [List.getD_append_right _ _ _ _ (by omega)]
        rw [hlenr]
        rw [← hval]
        congr 1
        omega

/-! ## Helper lemmas about splicing, setting and the sortedness invariant -/

theorem getD_mem {α : Type} {arr : List α} {i : Nat} (h : i < arr.length) (d : α) :
    arr.getD i d ∈ arr := by
  rw [List.getD_eq_getElem arr d h]
  exact List.getElem_mem h

theorem length_spliceInsert {α : Type} (arr : List α) (i : Nat) (x : α) (h : i ≤ arr.length) :
    (spliceInsert arr i x).length = arr.length + 1 := by
  simp [spliceInsert, List.length_append, List.length_take, List.length_drop]
  omega

theorem mem_spliceInsert {α : Type} {arr : List α} {i : Nat} {x a : α}
    (h : a ∈ spliceInsert arr i x) : a = x ∨ a ∈ arr := by
  rcases List.mem_append.mp h with h1 | h2
  · exact Or.inr (List.Sublist.mem h1 (List.take_sublist i arr))
  · rcases List.mem_cons.mp h2 with h3 | h4
    · exact Or.inl h3
    · exact Or.inr (List.Sublist.mem h4 (List.drop_sublist i arr))

/-- Replacing an entry by one with the same tag preserves tag-sortedness. -/
theorem pairwise_tag_set {β : Type} (tagOf : β → String) {arr : List β}
    (hp : List.Pairwise (fun a b => tagOf a < tagOf b) arr) (i : Nat) (x : β) (d : β)
    (htag : tagOf x = tagOf (arr.getD i d)) :
    List.Pairwise (fun a b => tagOf a < tagOf b) (arr.set i x) := by
  by_cases hi : i < arr.length
  · rw [List.getD_eq_getElem arr d hi] at htag
    rw [List.pairwise_iff_getElem] at hp ⊢
    intro k l hk hl hkl
    rw [List.length_set] at hk hl
    rw [List.getElem_set, List.getElem_set]
    by_cases hik : i = k
    · subst hik
      rw [if_pos rfl, if_neg (by omega)]
      rw [htag]
      exact hp i l hi hl hkl
    · rw [if_neg hik]
      by_cases hil : i = l
      · subst hil
        rw [if_pos rfl, htag]
        exact hp k i hk hi hkl
      · rw [if_neg hil]
        exact hp k l hk hl hkl
  · rw [List.set_eq_of_length_le (by omega)]
    exact hp

theorem scriptsSorted_createDefaultTable : ScriptsSorted createDefaultTable :=
  ⟨List.Pairwise.nil, by intro r hr; simp [createDefaultTable] at hr⟩

/-- `getScriptTableGo` on a sorted table keeps it sorted, and a returned
locator is a valid index of the (new) script array. -/
theorem getScriptTableGo_inv (layout : LayoutTable) (script : String) (create : Bool)
    (h : ScriptsSorted layout) :
    TablesSorted (getScriptTableGo (some layout, some layout) script create).1 ∧
    ∀ layout' si, getScriptTableGo (some layout, some layout) script create =
        (some layout', some si) →
      ScriptsSorted layout' ∧ si < layout'.scripts.length := by
  rcases searchTag_spec (fun r : ScriptRecord => r.tag) default layout.scripts script h.1 with
    ⟨i, hi, hres, htag⟩ | ⟨m, hres, hm, hpre, hsuf⟩
  · simp only [getScriptTableGo, hres]
    rw [if_pos (by omega : (i : Int) ≥ 0)]
    refine ⟨h, ?_⟩
    intro layout' si heq
    rw [Prod.mk.injEq, Option.some.injEq, Option.some.injEq] at heq
    obtain ⟨rfl, rfl⟩ := heq
    exact ⟨h, by omega⟩
  · simp only [getScriptTableGo, hres]
    rw [if_neg (by omega : ¬ -(m : Int) - 1 ≥ 0)]
    cases create with
    | false =>
      refine ⟨h, ?_⟩
      intro layout' si heq
      rw [Prod.mk.injEq] at heq
      exact absurd heq.2 (by simp)
    | true =>
      rw [if_pos rfl]
      have hidx : (-1 - (-(m : Int) - 1)).toNat = m := by omega
      rw [hidx]
      have hsorted' : ScriptsSorted
          { layout with scripts :=
              spliceInsert layout.scripts m ⟨script, ⟨⟨0, 0xffff, []⟩, []⟩⟩ } := by
        constructor
        · refine @spliceInsert_pairwise ScriptRecord (fun a b => a.tag < b.tag)
            (fun a b c hab hbc => lt_trans hab hbc) layout.scripts default _ m hm h.1
            ?_ ?_
          · intro k hk hkm
            exact hpre k hk hkm
          · intro k hk hkm
            exact hsuf k hk hkm
        · intro r hr
          rcases mem_spliceInsert hr with rfl | hmem
          · exact List.Pairwise.nil
          · exact h.2 r hmem
      refine ⟨hsorted', ?_⟩
      intro layout' si heq
      rw [Prod.mk.injEq, Option.some.injEq, Option.some.injEq] at heq
      obtain ⟨rfl, rfl⟩ := heq
      refine ⟨hsorted', ?_⟩
      simp only []
      rw [length_spliceInsert layout.scripts m _ hm]
      omega

/-- Lift of `getScriptTableGo_inv` through `getTable`. -/
theorem getScriptTable_inv (tables : Option LayoutTable) (script : String) (create : Bool)
    (h : TablesSorted tables) :
    TablesSorted (getScriptTable tables script create).1 ∧
    ∀ layout' si, getScriptTable tables script create = (some layout', some si) →
      ScriptsSorted layout' ∧ si < layout'.scripts.length := by
  cases tables with
  | some layout =>
    exact getScriptTableGo_inv layout script create h
  | none =>
    cases create with
    | false =>
      refine ⟨trivial, ?_⟩
      intro layout' si heq
      rw [show getScriptTable none script false = (none, none) from rfl, Prod.mk.injEq] at heq
      exact absurd heq.1 (by simp)
    | true =>
      exact getScriptTableGo_inv createDefaultTable script true scriptsSorted_createDefaultTable

theorem getD_set_self {α : Type} (arr : List α) (i : Nat) (x d : α) (h : i < arr.length) :
    (arr.set i x).getD i d = x := by
  rw [List.getD_eq_getElem _ _ (by rw [List.length_set]; exact h), List.getElem_set, if_pos rfl]

theorem spliceLangSys_scripts_length (layout : LayoutTable) (si idx : Nat)
    (lrec : LangSysRecord) :
    (spliceLangSys layout si idx lrec).scripts.length = layout.scripts.length := by
  simp [spliceLangSys, List.length_set]

theorem spliceLangSys_langSysRecords (layout : LayoutTable) (si idx : Nat)
    (lrec : LangSysRecord) (hsi : si < layout.scripts.length) :
    (((spliceLangSys layout si idx lrec).scripts.getD si default).script).langSysRecords =
      spliceInsert (((layout.scripts.getD si default).script).langSysRecords) idx lrec := by
  unfold spliceLangSys
  rw [getD_set_self _ _ _ _ hsi]

theorem scriptsSorted_spliceLangSys (layout : LayoutTable) (si idx : Nat)
    (lrec : LangSysRecord) (h : ScriptsSorted layout)
    (hrecs' : List.Pairwise (fun a b : LangSysRecord => a.tag < b.tag)
      (spliceInsert (((layout.scripts.getD si default).script).langSysRecords) idx lrec)) :
    ScriptsSorted (spliceLangSys layout si idx lrec) := by
  unfold spliceLangSys
  constructor
  · exact pairwise_tag_set (fun r : ScriptRecord => r.tag) h.1 si _ default rfl
  · intro r hr
    rcases List.mem_or_eq_of_mem_set hr with hmem | rfl
    · exact h.2 r hmem
    · exact hrecs'

/-- `getLangSysTableGo` on a sorted table keeps it sorted; a returned locator
is a valid script index together with a valid `langSysRecords` index (when it
does not denote the `defaultLangSys` slot). -/
theorem getLangSysTableGo_inv (layout : LayoutTable) (si : Nat) (language : String)
    (create : Bool) (h : ScriptsSorted layout) (hsi : si < layout.scripts.length) :
    TablesSorted (getLangSysTableGo (some layout, some si) language create).1 ∧
    ∀ layout' loc, getLangSysTableGo (some layout, some si) language create =
        (some layout', some loc) →
      ScriptsSorted layout' ∧ loc.1 < layout'.scripts.length ∧
      ∀ j, loc.2 = some j →
        j < ((layout'.scripts.getD loc.1 default).script).langSysRecords.length := by
  have hrecsorted : List.Pairwise (fun a b : LangSysRecord => a.tag < b.tag)
      ((layout.scripts.getD si default).script).langSysRecords :=
    h.2 _ (getD_mem hsi default)
  simp only [getLangSysTableGo]
  by_cases hdflt : language = "dflt" ∨ language = "DFLT"
  · rw [if_pos hdflt]
    refine ⟨h, ?_⟩
    intro layout' loc heq
    rw [Prod.mk.injEq, Option.some.injEq, Option.some.injEq] at heq
    obtain ⟨rfl, rfl⟩ := heq
    exact ⟨h, hsi, fun j hj => by simp at hj⟩
  · rw [if_neg hdflt]
    rcases searchTag_spec (fun r : LangSysRecord => r.tag) default
        ((layout.scripts.getD si default).script).langSysRecords language hrecsorted with
      ⟨i, hi, hres, htag⟩ | ⟨m, hres, hm, hpre, hsuf⟩
    · rw [hres]
      rw [if_pos (by omega : (i : Int) ≥ 0)]
      refine ⟨h, ?_⟩
      intro layout' loc heq
      rw [Prod.mk.injEq, Option.some.injEq, Option.some.injEq] at heq
      obtain ⟨rfl, rfl⟩ := heq
      refine ⟨h, hsi, ?_⟩
      intro j hj
      rw [Option.some.injEq] at hj
      subst hj
      simpa using hi
    · rw [hres]
      rw [if_neg (by omega : ¬ -(m : Int) - 1 ≥ 0)]
      cases create with
      | false =>
        refine ⟨h, ?_⟩
        intro layout' loc heq
        rw [Prod.mk.injEq] at heq
        exact absurd heq.2 (by simp)
      | true =>
        rw [if_pos rfl]
        have hidx : (-1 - (-(m : Int) - 1)).toNat = m := by omega
        rw [hidx]
        have hrecs' : List.Pairwise (fun a b : LangSysRecord => a.tag < b.tag)
            (spliceInsert ((layout.scripts.getD si default).script).langSysRecords m
              ⟨language, ⟨0, 0xffff, []⟩⟩) := by
          refine @spliceInsert_pairwise LangSysRecord (fun a b => a.tag < b.tag)
            (fun a b c hab hbc => lt_trans hab hbc) _ default _ m hm hrecsorted ?_ ?_
          · intro k hk hkm
            exact hpre k hk hkm
          · intro k hk hkm
            exact hsuf k hk hkm
        have hsorted' : ScriptsSorted (spliceLangSys layout si m ⟨language, ⟨0, 0xffff, []⟩⟩) :=
          scriptsSorted_spliceLangSys layout si m _ h hrecs'
        refine ⟨hsorted', ?_⟩
        intro layout' loc heq
        rw [Prod.mk.injEq, Option.some.injEq, Option.some.injEq] at heq
        obtain ⟨rfl, rfl⟩ := heq
        refine ⟨hsorted', ?_, ?_⟩
        · rw [spliceLangSys_scripts_length]
          exact hsi
        · intro j hj
          rw [Option.some.injEq] at hj
          subst hj
          rw [spliceLangSys_langSysRecords layout si m _ hsi]
          rw [length_spliceInsert _ m _ hm]
          omega

/-- Lift of `getLangSysTableGo_inv` through `getScriptTable`. -/
theorem getLangSysTable_inv (tables : Option LayoutTable) (script language : String)
    (create : Bool) (h : TablesSorted tables) :
    TablesSorted (getLangSysTable tables script language create).1 ∧
    ∀ layout' loc, getLangSysTable tables script language create = (some layout', some loc) →
      ScriptsSorted layout' ∧ loc.1 < layout'.scripts.length ∧
      ∀ j, loc.2 = some j →
        j < ((layout'.scripts.getD loc.1 default).script).langSysRecords.length := by
  have hs := getScriptTable_inv tables script create h
  unfold getLangSysTable
  rcases hres : getScriptTable tables script create with ⟨t', opt⟩
  rw [hres] at hs
  rcases opt with _ | si
  · simp only [getLangSysTableGo]
    refine ⟨hs.1, ?_⟩
    intro layout' loc heq
    rw [Prod.mk.injEq] at heq
    exact absurd heq.2 (by simp)
  · rcases t' with _ | layout
    · simp only [getLangSysTableGo]
      refine ⟨trivial, ?_⟩
      intro layout' loc heq
      rw [Prod.mk.injEq] at heq
      exact absurd heq.1 (by simp)
    · obtain ⟨hsorted, hsi⟩ := hs.2 layout si rfl
      exact getLangSysTableGo_inv layout si language create hsorted hsi

/-- Writing a LangSys value through a locator never changes any tag, so the
sortedness invariant survives. -/
theorem scriptsSorted_setLangSysAt (layout : LayoutTable) (loc : Nat × Option Nat)
    (ls : LangSys) (h : ScriptsSorted layout) : ScriptsSorted (setLangSysAt layout loc ls) := by
  have hbase : List.Pairwise (fun a b : LangSysRecord => a.tag < b.tag)
      ((layout.scripts.getD loc.1 default).script).langSysRecords := by
    by_cases hloc : loc.1 < layout.scripts.length
    · exact h.2 _ (getD_mem hloc default)
    · rw [List.getD_eq_default _ _ (by omega)]
      exact List.Pairwise.nil
  constructor
  · exact pairwise_tag_set (fun r : ScriptRecord => r.tag) h.1 loc.1 _ default rfl
  · intro r hr
    rcases List.mem_or_eq_of_mem_set hr with hmem | rfl
    · exact h.2 r hmem
    · rcases hloc2 : loc.2 with _ | j
      · simp only [setLangSysAt, hloc2]
        exact hbase
      · simp only [setLangSysAt, hloc2]
        exact pairwise_tag_set (fun r : LangSysRecord => r.tag) hbase j _ default rfl

/-- `getFeatureTableGo` keeps the sortedness invariant, on the ok and the
throwing path alike. -/
theorem getFeatureTableGo_inv (layout : LayoutTable) (loc : Nat × Option Nat)
    (feature : String) (create : Bool) (h : ScriptsSorted layout) :
    TablesSorted (exceptState (getFeatureTableGo (some layout, some loc) feature create)) := by
  simp only [getFeatureTableGo]
  rcases hfind : (lookupLangSys layout loc).featureIndexes.find?
      (fun idx => (layout.features.getD idx default).tag == feature) with _ | idx
  · cases create with
    | false => exact h
    | true =>
      rw [if_pos rfl]
      by_cases hcond : layout.features.length = 0 ∨
          feature ≥ (layout.features.getD (layout.features.length - 1) default).tag
      · rw [if_pos hcond]
        exact scriptsSorted_setLangSysAt _ loc _ h
      · rw [if_neg hcond]
        exact h
  · exact h

/-- Lift of `getFeatureTableGo_inv`: `getFeatureTable` keeps the invariant. -/
theorem getFeatureTable_inv (tables : Option LayoutTable) (script language feature : String)
    (create : Bool) (h : TablesSorted tables) :
    TablesSorted (exceptState (getFeatureTable tables script language feature create)) := by
  have hs := getLangSysTable_inv tables script language create h
  unfold getFeatureTable
  rcases hres : getLangSysTable tables script language create with ⟨t', opt⟩
  rw [hres] at hs
  rcases opt with _ | loc
  · simp only [getFeatureTableGo]
    exact hs.1
  · rcases t' with _ | layout
    · simp only [getFeatureTableGo]
      exact trivial
    · obtain ⟨hsorted, _, _⟩ := hs.2 layout loc rfl
      exact getFeatureTableGo_inv layout loc feature create hsorted

/-- `getLookupTables` keeps the sortedness invariant: its own mutations touch
only the lookup and feature arrays, never a tag-sorted array. -/
theorem getLookupTables_inv (tables : Option LayoutTable) (script language feature : String)
    (lookupType : Nat) (create : Bool) (h : TablesSorted tables) :
    TablesSorted (exceptState (getLookupTables tables script language feature lookupType create)) := by
  have hs := getFeatureTable_inv tables script language feature create h
  unfold getLookupTables
  rcases hres : getFeatureTable tables script language feature create with e | ⟨t', opt⟩
  · rw [hres] at hs
    rcases e with ⟨msg, t⟩
    simp only [getLookupTablesGo]
    exact hs
  · rw [hres] at hs
    rcases opt with _ | fi
    · simp only [getLookupTablesGo]
      exact hs
    · rcases t' with _ | layout
      · simp only [getLookupTablesGo]
        exact trivial
      · simp only [getLookupTablesGo]
        by_cases hcond : ((((layout.features.getD fi default).feature).lookupListIndexes).filterMap
            (fun idx =>
              if (layout.lookups.getD idx default).lookupType = lookupType then
                some (layout.lookups.getD idx default) else none)).length = 0 ∧ create = true
        · rw [if_pos hcond]
          exact hs
        · rw [if_neg hcond]
          exact hs

/-! ## Claim theorems -/

/-- C4: on an array of records sorted strictly ascending by tag, `searchTag`
returns the index of the record carrying the requested tag when one exists,
and otherwise a negative value equal to `-(insertionIndex) - 1` such that
splicing a record with that tag at `insertionIndex` keeps the array sorted
ascending by tag. -/
theorem claim_C4 {α : Type} (tagOf : α → String) (d : α) (arr : List α) (tag : String)
    (hsort : List.Pairwise (fun a b => tagOf a < tagOf b) arr) :
    (∀ i : Nat, i < arr.length → tagOf (arr.getD i d) = tag →
      searchTag tagOf d arr tag = (i : Int)) ∧
    ((∀ i : Nat, i < arr.length → tagOf (arr.getD i d) ≠ tag) →
      ∃ m : Nat, searchTag tagOf d arr tag = -(m : Int) - 1 ∧ m ≤ arr.length ∧
        ∀ x : α, tagOf x = tag →
          List.Pairwise (fun a b => tagOf a < tagOf b) (spliceInsert arr m x)) := by
  rcases searchTag_spec tagOf d arr tag hsort with
    ⟨i', hi', hres, htag⟩ | ⟨m, hres, hm, hpre, hsuf⟩
  · constructor
    · intro i hi hitag
      have heq : i = i' := by
        by_contra hne
        rcases Nat.lt_or_ge i i' with h | h
        · have := pairwise_getD hsort d i i' h hi'
          rw [hitag, htag] at this
          exact lt_irrefl _ this
        · have hlt : i' < i := by omega
          have := pairwise_getD hsort d i' i hlt hi
          rw [hitag, htag] at this
          exact lt_irrefl _ this
      rw [heq, hres]
    · intro habs
      exact absurd htag (habs i' hi')
  · constructor
    · intro i hi hitag
      exfalso
      rcases Nat.lt_or_ge i m with h | h
      · have := hpre i hi h
        rw [hitag] at this
        exact lt_irrefl _ this
      · have := hsuf i hi h
        rw [hitag] at this
        exact lt_irrefl _ this
    · intro _
      refine ⟨m, hres, hm, ?_⟩
      intro x hx
      refine @spliceInsert_pairwise α (fun a b => tagOf a < tagOf b)
        (fun a b c hab hbc => lt_trans hab hbc) arr d x m hm hsort ?_ ?_
      · intro k hk hkm
        rw [hx]
        exact hpre k hk hkm
      · intro k hk hkm
        rw [hx]
        exact hsuf k hk hkm

/-- Witness for C4 at a concrete sorted two-record array: the present tag
`"latn"` is found at index 1, and the absent tag `"grek"` yields an insertion
point whose splice stays sorted. -/
theorem claim_C4_witness :
    searchTag (fun r : ScriptRecord => r.tag) default
      [⟨"DFLT", default⟩, ⟨"latn", default⟩] "latn" = (1 : Int) ∧
    ∃ m : Nat, searchTag (fun r : ScriptRecord => r.tag) default
        [⟨"DFLT", default⟩, ⟨"latn", default⟩] "grek" = -(m : Int) - 1 ∧
      m ≤ ([⟨"DFLT", default⟩, ⟨"latn", default⟩] : List ScriptRecord).length ∧
      ∀ x : ScriptRecord, x.tag = "grek" →
        List.Pairwise (fun a b : ScriptRecord => a.tag < b.tag)
          (spliceInsert [⟨"DFLT", default⟩, ⟨"latn", default⟩] m x) :=
  ⟨(claim_C4 (fun r : ScriptRecord => r.tag) default
      [⟨"DFLT", default⟩, ⟨"latn", default⟩] "latn" (by decide)).1 1 (by decide) (by decide),
   (claim_C4 (fun r : ScriptRecord => r.tag) default
      [⟨"DFLT", default⟩, ⟨"latn", default⟩] "grek" (by decide)).2 (by decide)⟩

/-- C2: starting from a table slot whose script array and whose per-script
`langSysRecords` arrays are sorted ascending by tag, every Layout operation —
including the create paths of `getScriptTable` and `getLangSysTable`, which
splice freshly default-initialized records at the insertion point decoded from
`searchTag`'s negative return — leaves those arrays sorted ascending by tag
(also on the throwing path of the feature-ordering assertion). -/
theorem claim_C2 (tables : Option LayoutTable) (script language feature : String)
    (lookupType : Nat) (create : Bool) (h : TablesSorted tables) :
    TablesSorted (getScriptTable tables script create).1 ∧
    TablesSorted (getLangSysTable tables script language create).1 ∧
    TablesSorted (exceptState (getFeatureTable tables script language feature create)) ∧
    TablesSorted (exceptState (getLookupTables tables script language feature lookupType create)) :=
  ⟨(getScriptTable_inv tables script create h).1,
   (getLangSysTable_inv tables script language create h).1,
   getFeatureTable_inv tables script language feature create h,
   getLookupTables_inv tables script language feature lookupType create h⟩

/-- Witness for C2: a concrete sorted table, run through the whole create
chain for a script, language and feature it does not yet contain. -/
theorem claim_C2_witness :
    TablesSorted (getScriptTable
      (some ⟨[⟨"DFLT", ⟨⟨0, 0xffff, []⟩, []⟩⟩], [], []⟩) "latn" true).1 ∧
    TablesSorted (getLangSysTable
      (some ⟨[⟨"DFLT", ⟨⟨0, 0xffff, []⟩, []⟩⟩], [], []⟩) "latn" "ROM " true).1 ∧
    TablesSorted (exceptState (getFeatureTable
      (some ⟨[⟨"DFLT", ⟨⟨0, 0xffff, []⟩, []⟩⟩], [], []⟩) "latn" "ROM " "liga" true)) ∧
    TablesSorted (exceptState (getLookupTables
      (some ⟨[⟨"DFLT", ⟨⟨0, 0xffff, []⟩, []⟩⟩], [], []⟩) "latn" "ROM " "liga" 4 true)) :=
  claim_C2 (some ⟨[⟨"DFLT", ⟨⟨0, 0xffff, []⟩, []⟩⟩], [], []⟩) "latn" "ROM " "liga" 4 true
    ⟨by decide, by decide⟩

/-- C8 counterexample: the source compares the language tag against exactly
`'dflt'` and `'DFLT'`, so the mixed-case `'Dflt'` is *not* routed to the
`defaultLangSys` slot: with `create = false` it falls through to the (empty)
`langSysRecords` lookup and the call returns no language system at all,
refuting the case-insensitivity stated by the claim. -/
theorem claim_C8_counterexample :
    getLangSysTable (some ⟨[⟨"latn", ⟨⟨0, 5, [1, 2]⟩, []⟩⟩], [], []⟩) "latn" "Dflt" false =
      (some ⟨[⟨"latn", ⟨⟨0, 5, [1, 2]⟩, []⟩⟩], [], []⟩, none) ∧
    getLangSysTable (some ⟨[⟨"latn", ⟨⟨0, 5, [1, 2]⟩, []⟩⟩], [], []⟩) "latn" "dflt" false =
      (some ⟨[⟨"latn", ⟨⟨0, 5, [1, 2]⟩, []⟩⟩], [], []⟩, some (0, none)) :=
  ⟨by decide, by decide⟩

/-- C8 (amended): whenever the script table resolves and the language string
is exactly `'dflt'` or exactly `'DFLT'`, `getLangSysTable` returns the script
table's `defaultLangSys` slot directly (locator `(si, none)`), performing no
tag lookup in `langSysRecords`. -/
theorem claim_C8_amended (tables : Option LayoutTable) (script language : String)
    (create : Bool) (layout : LayoutTable) (si : Nat)
    (hscript : getScriptTable tables script create = (some layout, some si))
    (hlang : language = "dflt" ∨ language = "DFLT") :
    getLangSysTable tables script language create = (some layout, some (si, none)) ∧
    lookupLangSys layout (si, none) =
      ((layout.scripts.getD si default).script).defaultLangSys := by
  unfold getLangSysTable
  rw [hscript]
  simp only [getLangSysTableGo]
  rw [if_pos hlang]
  exact ⟨rfl, rfl⟩

/-- Witness for C8 (amended) at a concrete table and the language `'DFLT'`. -/
theorem claim_C8_amended_witness :
    getLangSysTable (some ⟨[⟨"latn", ⟨⟨0, 5, [1, 2]⟩, []⟩⟩], [], []⟩) "latn" "DFLT" false =
      (some ⟨[⟨"latn", ⟨⟨0, 5, [1, 2]⟩, []⟩⟩], [], []⟩, some (0, none)) ∧
    lookupLangSys ⟨[⟨"latn", ⟨⟨0, 5, [1, 2]⟩, []⟩⟩], [], []⟩ (0, none) =
      ((([⟨"latn", ⟨⟨0, 5, [1, 2]⟩, []⟩⟩] :
        List ScriptRecord).getD 0 default).script).defaultLangSys :=
  claim_C8_amended (some ⟨[⟨"latn", ⟨⟨0, 5, [1, 2]⟩, []⟩⟩], [], []⟩) "latn" "DFLT" false
    ⟨[⟨"latn", ⟨⟨0, 5, [1, 2]⟩, []⟩⟩], [], []⟩ 0 (by decide) (Or.inr rfl)

/-- C10: on a format discriminant other than 1 and 2 both classification
queries fall through their `switch` without a default branch and return
`undefined` (`none`) — not the not-found sentinels `0` / `-1` and not an
error. -/
theorem claim_C10 (classDefTable : ClassDefTable) (coverageTable : CoverageTable)
    (g1 g2 : Nat)
    (h1 : classDefTable.format ≠ 1) (h2 : classDefTable.format ≠ 2)
    (h3 : coverageTable.format ≠ 1) (h4 : coverageTable.format ≠ 2) :
    getGlyphClass classDefTable g1 = none ∧ getCoverageIndex coverageTable g2 = none := by
  unfold getGlyphClass getCoverageIndex
  rw [if_neg h1, if_neg h2, if_neg h3, if_neg h4]
  exact ⟨rfl, rfl⟩

/-- Witness for C10 at format 3 tables. -/
theorem claim_C10_witness :
    getGlyphClass ⟨3, 5, [1, 2], []⟩ 6 = none ∧ getCoverageIndex ⟨3, [4], []⟩ 4 = none :=
  claim_C10 ⟨3, 5, [1, 2], []⟩ ⟨3, [4], []⟩ 6 4 (by decide) (by decide) (by decide) (by decide)

/-- C7: `getGlyphClass` — format 1 returns the stored class at position
`g - startGlyph` when `startGlyph ≤ g < startGlyph + classes.length` and `0`
otherwise; format 2 returns the `classId` of the ascending non-overlapping
range containing `g`, and `0` when no range contains it; and the concrete
format-1 table `startGlyph = 5`, `classes = [1,2,0]` classifies glyphs
`5,6,7` as `1,2,0` and glyphs `4` and `8` as `0`. -/
theorem claim_C7 :
    (∀ (t : ClassDefTable) (g : Nat), t.format = 1 →
      t.startGlyph ≤ g → g < t.startGlyph + t.classes.length →
      getGlyphClass t g = some (t.classes.getD (g - t.startGlyph) 0)) ∧
    (∀ (t : ClassDefTable) (g : Nat), t.format = 1 →
      ¬(t.startGlyph ≤ g ∧ g < t.startGlyph + t.classes.length) →
      getGlyphClass t g = some 0) ∧
    (∀ (t : ClassDefTable) (g : Nat), t.format = 2 →
      (∀ r ∈ t.ranges, r.start ≤ r.stop) →
      List.Pairwise (fun a b : ClassRangeRecord => a.stop < b.start) t.ranges →
      (∀ i, i < t.ranges.length → (t.ranges.getD i default).start ≤ g →
        g ≤ (t.ranges.getD i default).stop →
        getGlyphClass t g = some (t.ranges.getD i default).classId) ∧
      ((∀ i, i < t.ranges.length → ¬((t.ranges.getD i default).start ≤ g ∧
          g ≤ (t.ranges.getD i default).stop)) →
        getGlyphClass t g = some 0)) ∧
    (getGlyphClass ⟨1, 5, [1, 2, 0], []⟩ 5 = some 1 ∧
      getGlyphClass ⟨1, 5, [1, 2, 0], []⟩ 6 = some 2 ∧
      getGlyphClass ⟨1, 5, [1, 2, 0], []⟩ 7 = some 0 ∧
      getGlyphClass ⟨1, 5, [1, 2, 0], []⟩ 4 = some 0 ∧
      getGlyphClass ⟨1, 5, [1, 2, 0], []⟩ 8 = some 0) := by
  refine ⟨?_, ?_, ?_, by decide, by decide, by decide, by decide, by decide⟩
  · intro t g hf h1 h2
    unfold getGlyphClass
    rw [hf]
    rw [if_pos rfl, if_pos ⟨h1, h2⟩]
  · intro t g hf hcond
    unfold getGlyphClass
    rw [hf]
    rw [if_pos rfl, if_neg hcond]
  · intro t g hf hse hnov
    have hse' : ∀ i, i < t.ranges.length →
        (t.ranges.getD i default).start ≤ (t.ranges.getD i default).stop :=
      fun i hi => hse _ (getD_mem hi default)
    have hnov' : ∀ i j, i < j → j < t.ranges.length →
        (t.ranges.getD i default).stop < (t.ranges.getD j default).start :=
      fun i j hij hj => pairwise_getD hnov default i j hij hj
    have hspec := searchRange_spec (fun r : ClassRangeRecord => r.start)
      (fun r : ClassRangeRecord => r.stop) default t.ranges g hse' hnov'
    constructor
    · intro i hi hs hstop
      unfold getGlyphClass
      rw [hf]
      rw [if_neg (by decide : ¬ (2 : Nat) = 1), if_pos rfl]
      rw [hspec.1 i hi hs hstop]
    · intro habs
      unfold getGlyphClass
      rw [hf]
      rw [if_neg (by decide : ¬ (2 : Nat) = 1), if_pos rfl]
      rcases hspec.2 (fun i hi hc => habs i hi hc) with hz | hu
      · rw [hz]
      · rw [hu]

/-- Witness for C7 at concrete format-1 and format-2 tables. -/
theorem claim_C7_witness :
    getGlyphClass ⟨1, 5, [1, 2, 0], []⟩ 6 =
      some (([1, 2, 0] : List Nat).getD (6 - 5) 0) ∧
    getGlyphClass ⟨1, 5, [1, 2, 0], []⟩ 9 = some 0 ∧
    getGlyphClass ⟨2, 0, [], [⟨2, 4, 7⟩, ⟨10, 10, 9⟩]⟩ 3 = some 7 ∧
    getGlyphClass ⟨2, 0, [], [⟨2, 4, 7⟩, ⟨10, 10, 9⟩]⟩ 5 = some 0 :=
  ⟨claim_C7.1 ⟨1, 5, [1, 2, 0], []⟩ 6 rfl (by decide) (by decide),
   claim_C7.2.1 ⟨1, 5, [1, 2, 0], []⟩ 9 rfl (by decide),
   (claim_C7.2.2.1 ⟨2, 0, [], [⟨2, 4, 7⟩, ⟨10, 10, 9⟩]⟩ 3 rfl (by decide) (by decide)).1
     0 (by decide) (by decide) (by decide),
   (claim_C7.2.2.1 ⟨2, 0, [], [⟨2, 4, 7⟩, ⟨10, 10, 9⟩]⟩ 5 rfl (by decide) (by decide)).2
     (by decide)⟩

/-- C5: `getCoverageIndex` returns the position of the glyph in the covered
set and `-1` outside it — format 1 over a strictly ascending glyph list by
`binSearch`, format 2 over ascending non-overlapping ranges whose `index`
field carries the coverage index of the range's first glyph, where the value
for a covered glyph is `range.index + (g - range.start)` and equals the
position of `g` in the expanded glyph sequence. -/
theorem claim_C5 :
    (∀ (ct : CoverageTable) (g : Nat), ct.format = 1 →
      List.Pairwise (fun a b : Nat => a < b) ct.glyphs →
      (∀ i, i < ct.glyphs.length → ct.glyphs.getD i 0 = g →
        getCoverageIndex ct g = some (i : Int)) ∧
      (g ∉ ct.glyphs → getCoverageIndex ct g = some (-1))) ∧
    (∀ (ct : CoverageTable) (g : Nat), ct.format = 2 →
      (∀ r ∈ ct.ranges, r.start ≤ r.stop) →
      List.Pairwise (fun a b : CoverageRangeRecord => a.stop < b.start) ct.ranges →
      (∀ i, i < ct.ranges.length →
        (ct.ranges.getD i default).index = rangesSize (ct.ranges.take i)) →
      (∀ i, i < ct.ranges.length → (ct.ranges.getD i default).start ≤ g →
        g ≤ (ct.ranges.getD i default).stop →
        getCoverageIndex ct g = some (((ct.ranges.getD i default).index : Int) +
          (g : Int) - ((ct.ranges.getD i default).start : Int)) ∧
        ∃ k : Nat, k < (expandCoverage ct).length ∧ (expandCoverage ct).getD k 0 = g ∧
          getCoverageIndex ct g = some (k : Int)) ∧
      ((∀ i, i < ct.ranges.length → ¬((ct.ranges.getD i default).start ≤ g ∧
          g ≤ (ct.ranges.getD i default).stop)) →
        getCoverageIndex ct g = some (-1))) := by
  constructor
  · intro ct g hf hsort
    constructor
    · intro i hi hval
      rcases binSearch_spec ct.glyphs g hsort with
        ⟨i', hi', hres, hval'⟩ | ⟨m, hres, hm, hpre, hsuf⟩
      · have heq : i = i' := by
          by_contra hne
          rcases Nat.lt_or_ge i i' with h | h
          · have := pairwise_getD hsort 0 i i' h hi'
            rw [hval, hval'] at this
            exact lt_irrefl _ this
          · have hlt : i' < i := by omega
            have := pairwise_getD hsort 0 i' i hlt hi
            rw [hval, hval'] at this
            exact lt_irrefl _ this
        unfold getCoverageIndex
        rw [hf]
        rw [if_pos rfl, hres, if_pos (by omega : (i' : Int) ≥ 0), heq]
      · exfalso
        rcases Nat.lt_or_ge i m with h | h
        · have := hpre i hi h
          rw [hval] at this
          exact lt_irrefl _ this
        · have := hsuf i hi h
          rw [hval] at this
          exact lt_irrefl _ this
    · intro hnmem
      rcases binSearch_spec ct.glyphs g hsort with
        ⟨i', hi', hres, hval'⟩ | ⟨m, hres, hm, hpre, hsuf⟩
      · exfalso
        exact hnmem (hval' ▸ getD_mem hi' 0)
      · unfold getCoverageIndex
        rw [hf]
        rw [if_pos rfl, hres, if_neg (by omega : ¬ -(m : Int) - 1 ≥ 0)]
  · intro ct g hf hse hnov hidx
    have hse' : ∀ i, i < ct.ranges.length →
        (ct.ranges.getD i default).start ≤ (ct.ranges.getD i default).stop :=
      fun i hi => hse _ (getD_mem hi default)
    have hnov' : ∀ i j, i < j → j < ct.ranges.length →
        (ct.ranges.getD i default).stop < (ct.ranges.getD j default).start :=
      fun i j hij hj => pairwise_getD hnov default i j hij hj
    have hspec := searchRange_spec (fun r : CoverageRangeRecord => r.start)
      (fun r : CoverageRangeRecord => r.stop) default ct.ranges g hse' hnov'
    constructor
    · intro i hi hs hstop
      have hfound :
          getCoverageIndex ct g = some (((ct.ranges.getD i default).index : Int) +
            (g : Int) - ((ct.ranges.getD i default).start : Int)) := by
        unfold getCoverageIndex
        rw [hf]
        rw [if_neg (by decide : ¬ (2 : Nat) = 1), if_pos rfl]
        rw [hspec.1 i hi hs hstop]
      refine ⟨hfound, ?_⟩
      obtain ⟨hklen, hkval⟩ := expandRanges_getD_inv ct.ranges hse i hi
        (g - (ct.ranges.getD i default).start) (by omega)
      refine ⟨rangesSize (ct.ranges.take i) + (g - (ct.ranges.getD i default).start), ?_, ?_, ?_⟩
      · rw [expandCoverage_eq_expandRanges ct (by rw [hf]; decide)]
        exact hklen
      · rw [expandCoverage_eq_expandRanges ct (by rw [hf]; decide)]
        rw [hkval]
        omega
      · rw [hfound]
        congr 1
        rw [hidx i hi]
        push_cast
        omega
    · intro habs
      unfold getCoverageIndex
      rw [hf]
      rw [if_neg (by decide : ¬ (2 : Nat) = 1), if_pos rfl]
      rcases hspec.2 (fun i hi hc => habs i hi hc) with hz | hu
      · rw [hz]
      · rw [hu]

/-- Witness for C5 at concrete format-1 and format-2 coverage tables. -/
theorem claim_C5_witness :
    getCoverageIndex ⟨1, [2, 3, 5], []⟩ 5 = some ((2 : Nat) : Int) ∧
    getCoverageIndex ⟨1, [2, 3, 5], []⟩ 4 = some (-1) ∧
    (getCoverageIndex ⟨2, [], [⟨2, 4, 0⟩, ⟨10, 10, 3⟩]⟩ 10 =
        some ((3 : Int) + (10 : Int) - (10 : Int)) ∧
      ∃ k : Nat, k < (expandCoverage ⟨2, [], [⟨2, 4, 0⟩, ⟨10, 10, 3⟩]⟩).length ∧
        (expandCoverage ⟨2, [], [⟨2, 4, 0⟩, ⟨10, 10, 3⟩]⟩).getD k 0 = 10 ∧
        getCoverageIndex ⟨2, [], [⟨2, 4, 0⟩, ⟨10, 10, 3⟩]⟩ 10 = some (k : Int)) ∧
    getCoverageIndex ⟨2, [], [⟨2, 4, 0⟩, ⟨10, 10, 3⟩]⟩ 7 = some (-1) :=
  ⟨(claim_C5.1 ⟨1, [2, 3, 5], []⟩ 5 rfl (by decide)).1 2 (by decide) (by decide),
   (claim_C5.1 ⟨1, [2, 3, 5], []⟩ 4 rfl (by decide)).2 (by decide),
   (claim_C5.2 ⟨2, [], [⟨2, 4, 0⟩, ⟨10, 10, 3⟩]⟩ 10 rfl (by decide) (by decide)
      (by decide)).1 1 (by decide) (by decide) (by decide),
   (claim_C5.2 ⟨2, [], [⟨2, 4, 0⟩, ⟨10, 10, 3⟩]⟩ 7 rfl (by decide) (by decide)
      (by decide)).2 (by decide)⟩

/-- C6: for a format-2 Coverage whose ranges are ascending, non-overlapping
and whose `index` fields carry the coverage index of each range's first glyph,
`expandCoverage` yields the full ascending duplicate-free sequence of covered
glyph ids (`[2,3,4,10]` for ranges `[{2,4},{10,10}]`), and `getCoverageIndex`
maps the `k`-th glyph of that sequence back to exactly `k`. -/
theorem claim_C6 (ct : CoverageTable) (hf : ct.format = 2)
    (hse : ∀ r ∈ ct.ranges, r.start ≤ r.stop)
    (hnov : List.Pairwise (fun a b : CoverageRangeRecord => a.stop < b.start) ct.ranges)
    (hidx : ∀ i, i < ct.ranges.length →
      (ct.ranges.getD i default).index = rangesSize (ct.ranges.take i)) :
    List.Pairwise (fun a b : Nat => a < b) (expandCoverage ct) ∧
    (∀ g : Nat, g ∈ expandCoverage ct ↔ ∃ r ∈ ct.ranges, r.start ≤ g ∧ g ≤ r.stop) ∧
    (∀ k, k < (expandCoverage ct).length →
      getCoverageIndex ct ((expandCoverage ct).getD k 0) = some (k : Int)) ∧
    expandCoverage ⟨2, [], [⟨2, 4, 0⟩, ⟨10, 10, 3⟩]⟩ = [2, 3, 4, 10] := by
  have hexp := expandCoverage_eq_expandRanges ct (by rw [hf]; decide)
  have hse' : ∀ i, i < ct.ranges.length →
      (ct.ranges.getD i default).start ≤ (ct.ranges.getD i default).stop :=
    fun i hi => hse _ (getD_mem hi default)
  have hnov' : ∀ i j, i < j → j < ct.ranges.length →
      (ct.ranges.getD i default).stop < (ct.ranges.getD j default).start :=
    fun i j hij hj => pairwise_getD hnov default i j hij hj
  have hspec := searchRange_spec (fun r : CoverageRangeRecord => r.start)
    (fun r : CoverageRangeRecord => r.stop) default ct.ranges
  refine ⟨?_, ?_, ?_, by decide⟩
  · rw [hexp]
    exact pairwise_expandRanges ct.ranges hse hnov
  · intro g
    rw [hexp]
    exact mem_expandRanges ct.ranges hse g
  · intro k hk
    rw [hexp] at hk ⊢
    obtain ⟨i, hi, hle, hstop, hval⟩ := expandRanges_getD ct.ranges hse k hk
    rw [hval]
    have hcontained := (hspec ((ct.ranges.getD i default).start +
      (k - rangesSize (ct.ranges.take i))) hse' hnov').1 i hi (by omega) hstop
    unfold getCoverageIndex
    rw [hf]
    rw [if_neg (by decide : ¬ (2 : Nat) = 1), if_pos rfl]
    rw [hcontained]
    show some (((ct.ranges.getD i default).index : Int) +
        ((((ct.ranges.getD i default).start + (k - rangesSize (ct.ranges.take i)) : Nat)) : Int) -
        ((ct.ranges.getD i default).start : Int)) = some (k : Int)
    congr 1
    rw [hidx i hi]
    push_cast
    omega

/-- Witness for C6 at the claim's concrete ranges `[{2,4},{10,10}]`. -/
theorem claim_C6_witness :
    List.Pairwise (fun a b : Nat => a < b)
      (expandCoverage ⟨2, [], [⟨2, 4, 0⟩, ⟨10, 10, 3⟩]⟩) ∧
    (∀ g : Nat, g ∈ expandCoverage ⟨2, [], [⟨2, 4, 0⟩, ⟨10, 10, 3⟩]⟩ ↔
      ∃ r ∈ ([⟨2, 4, 0⟩, ⟨10, 10, 3⟩] : List CoverageRangeRecord),
        r.start ≤ g ∧ g ≤ r.stop) ∧
    (∀ k, k < (expandCoverage ⟨2, [], [⟨2, 4, 0⟩, ⟨10, 10, 3⟩]⟩).length →
      getCoverageIndex ⟨2, [], [⟨2, 4, 0⟩, ⟨10, 10, 3⟩]⟩
        ((expandCoverage ⟨2, [], [⟨2, 4, 0⟩, ⟨10, 10, 3⟩]⟩).getD k 0) = some (k : Int)) ∧
    expandCoverage ⟨2, [], [⟨2, 4, 0⟩, ⟨10, 10, 3⟩]⟩ = [2, 3, 4, 10] :=
  claim_C6 ⟨2, [], [⟨2, 4, 0⟩, ⟨10, 10, 3⟩]⟩ rfl (by decide) (by decide) (by decide)

theorem lookupLangSys_setLangSysAt (layout : LayoutTable) (loc : Nat × Option Nat)
    (ls : LangSys) (h1 : loc.1 < layout.scripts.length)
    (h2 : ∀ j, loc.2 = some j →
      j < ((layout.scripts.getD loc.1 default).script).langSysRecords.length) :
    lookupLangSys (setLangSysAt layout loc ls) loc = ls := by
  rcases loc with ⟨si, lj⟩
  rcases lj with _ | j
  · simp only [lookupLangSys, setLangSysAt]
    rw [getD_set_self _ _ _ _ h1]
  · simp only [lookupLangSys, setLangSysAt]
    rw [getD_set_self _ _ _ _ h1]
    rw [getD_set_self _ _ _ _ (h2 j rfl)]

/-- C1: when `getFeatureTable(script, language, feature, create = true)`
resolves the language system but finds no record with the requested tag among
its `featureIndexes`, then: if the global feature array is empty or the new
tag is `≥` the tag of its last element, a new feature record is appended at
the end of the feature array, its index is appended to the LangSys's
`featureIndexes` and the fresh feature subtree is returned; if the new tag is
`<` the last tag, the call raises the alphabetical-order assertion and appends
nothing (the state carried by the error is the unchanged table).  In
particular, appending `'aalt'` then `'liga'` to an empty feature array
succeeds, and appending `'aalt'` when `'liga'` is already last fails. -/
theorem claim_C1 :
    (∀ (tables : Option LayoutTable) (script language feature : String)
      (layout : LayoutTable) (loc : Nat × Option Nat),
      getLangSysTable tables script language true = (some layout, some loc) →
      loc.1 < layout.scripts.length →
      (∀ j, loc.2 = some j →
        j < ((layout.scripts.getD loc.1 default).script).langSysRecords.length) →
      (∀ idx ∈ (lookupLangSys layout loc).featureIndexes,
        (layout.features.getD idx default).tag ≠ feature) →
      ((layout.features = [] ∨
          (layout.features.getD (layout.features.length - 1) default).tag ≤ feature →
        ∃ layout', getFeatureTable tables script language feature true =
            .ok (some layout', some layout.features.length) ∧
          layout'.features = layout.features ++ [⟨feature, ⟨0, []⟩⟩] ∧
          (lookupLangSys layout' loc).featureIndexes =
            (lookupLangSys layout loc).featureIndexes ++ [layout.features.length] ∧
          (layout'.features.getD layout.features.length default).feature = ⟨0, []⟩) ∧
      (layout.features ≠ [] →
        feature < (layout.features.getD (layout.features.length - 1) default).tag →
        getFeatureTable tables script language feature true =
          .error ("Features must be added in alphabetical order.", some layout)))) ∧
    (getFeatureTable none "DFLT" "dflt" "aalt" true =
      .ok (some ⟨[⟨"DFLT", ⟨⟨0, 0xffff, [0]⟩, []⟩⟩], [⟨"aalt", ⟨0, []⟩⟩], []⟩, some 0) ∧
    getFeatureTable (some ⟨[⟨"DFLT", ⟨⟨0, 0xffff, [0]⟩, []⟩⟩], [⟨"aalt", ⟨0, []⟩⟩], []⟩)
        "DFLT" "dflt" "liga" true =
      .ok (some ⟨[⟨"DFLT", ⟨⟨0, 0xffff, [0, 1]⟩, []⟩⟩],
        [⟨"aalt", ⟨0, []⟩⟩, ⟨"liga", ⟨0, []⟩⟩], []⟩, some 1)) ∧
    getFeatureTable (some ⟨[⟨"DFLT", ⟨⟨0, 0xffff, []⟩, []⟩⟩], [⟨"liga", ⟨0, []⟩⟩], []⟩)
        "DFLT" "dflt" "aalt" true =
      .error ("Features must be added in alphabetical order.",
        some ⟨[⟨"DFLT", ⟨⟨0, 0xffff, []⟩, []⟩⟩], [⟨"liga", ⟨0, []⟩⟩], []⟩) := by
  refine ⟨?_, ⟨by rfl, by rfl⟩, by rfl⟩
  intro tables script language feature layout loc hres hb1 hb2 hnf
  have hfind : (lookupLangSys layout loc).featureIndexes.find?
      (fun idx => (layout.features.getD idx default).tag == feature) = none := by
    rw [List.find?_eq_none]
    intro x hx
    simp only [beq_iff_eq]
    exact hnf x hx
  unfold getFeatureTable
  rw [hres]
  simp only [getFeatureTableGo, hfind]
  rw [if_pos trivial]
  constructor
  · intro hcond
    have hcond' : layout.features.length = 0 ∨
        feature ≥ (layout.features.getD (layout.features.length - 1) default).tag := by
      rcases hcond with h | h
      · exact Or.inl (by rw [h]; rfl)
      · exact Or.inr h
    rw [if_pos hcond']
    refine ⟨_, rfl, rfl, ?_, ?_⟩
    · exact congrArg LangSys.featureIndexes
        (lookupLangSys_setLangSysAt
          ⟨layout.scripts, layout.features ++ [⟨feature, ⟨0, []⟩⟩], layout.lookups⟩ loc
          ⟨(lookupLangSys layout loc).reserved, (lookupLangSys layout loc).reqFeatureIndex,
            (lookupLangSys layout loc).featureIndexes ++ [layout.features.length]⟩ hb1 hb2)
    · show ((layout.features ++ [(⟨feature, ⟨0, []⟩⟩ : FeatureRecord)]).getD
        layout.features.length default).feature = ⟨0, []⟩
      rw [List.getD_append_right _ _ _ _ (Nat.le_refl _), Nat.sub_self]
      rfl
  · intro hne hlt
    rw [if_neg ?hcond]
    case hcond =>
      rintro (h | h)
      · exact hne (List.length_eq_zero.mp h)
      · exact absurd hlt (not_lt.mpr h)

/-- Witness for C1: the success branch applied to an empty feature array (the
`'aalt'` append), and the failure branch applied to a table whose last feature
tag is `'liga'`. -/
theorem claim_C1_witness :
    (∃ layout', getFeatureTable (some ⟨[⟨"DFLT", ⟨⟨0, 0xffff, []⟩, []⟩⟩], [], []⟩)
        "DFLT" "dflt" "aalt" true = .ok (some layout', some 0) ∧
      layout'.features = [⟨"aalt", ⟨0, []⟩⟩] ∧
      (lookupLangSys layout' (0, none)).featureIndexes = [0] ∧
      (layout'.features.getD 0 default).feature = ⟨0, []⟩) ∧
    getFeatureTable (some ⟨[⟨"DFLT", ⟨⟨0, 0xffff, []⟩, []⟩⟩], [⟨"liga", ⟨0, []⟩⟩], []⟩)
        "DFLT" "dflt" "aalt" true =
      .error ("Features must be added in alphabetical order.",
        some ⟨[⟨"DFLT", ⟨⟨0, 0xffff, []⟩, []⟩⟩], [⟨"liga", ⟨0, []⟩⟩], []⟩) :=
  ⟨(claim_C1.1 (some ⟨[⟨"DFLT", ⟨⟨0, 0xffff, []⟩, []⟩⟩], [], []⟩) "DFLT" "dflt" "aalt"
      ⟨[⟨"DFLT", ⟨⟨0, 0xffff, []⟩, []⟩⟩], [], []⟩ (0, none) (by rfl) (by decide)
      (fun j hj => Option.noConfusion hj) (by decide)).1 (Or.inl rfl),
   (claim_C1.1 (some ⟨[⟨"DFLT", ⟨⟨0, 0xffff, []⟩, []⟩⟩], [⟨"liga", ⟨0, []⟩⟩], []⟩)
      "DFLT" "dflt" "aalt"
      ⟨[⟨"DFLT", ⟨⟨0, 0xffff, []⟩, []⟩⟩], [⟨"liga", ⟨0, []⟩⟩], []⟩ (0, none) (by rfl)
      (by decide) (fun j hj => Option.noConfusion hj) (by decide)).2
      (by decide) (by decide)⟩

/-- C9: `getLookupTables` always yields a list, never an absent result: every
unresolved chain with `create = false` yields `[]`, a resolved feature with no
lookup of the requested type and `create = false` yields `[]`, and with
`create = true` it yields exactly the one freshly created lookup
`{lookupType, lookupFlag := 0, subtables := [], markFilteringSet := none}`,
appended to the global lookup array and referenced from the feature. -/
theorem claim_C9 :
    (∀ (tables : Option LayoutTable) (script language feature : String)
        (lookupType : Nat) (t' : Option LayoutTable),
      getFeatureTable tables script language feature false = .ok (t', none) →
      getLookupTables tables script language feature lookupType false = .ok (t', [])) ∧
    (∀ (tables : Option LayoutTable) (script language feature : String)
        (lookupType : Nat) (create : Bool) (layout : LayoutTable) (fi : Nat),
      getFeatureTable tables script language feature create = .ok (some layout, some fi) →
      ((((layout.features.getD fi default).feature).lookupListIndexes).filterMap
          (fun idx =>
            if (layout.lookups.getD idx default).lookupType = lookupType then
              some (layout.lookups.getD idx default) else none) = [] →
        create = true → fi < layout.features.length →
        ∃ layout', getLookupTables tables script language feature lookupType create =
            .ok (some layout', [⟨lookupType, 0, [], none⟩]) ∧
          layout'.lookups = layout.lookups ++ [⟨lookupType, 0, [], none⟩] ∧
          ((layout'.features.getD fi default).feature).lookupListIndexes =
            ((layout.features.getD fi default).feature).lookupListIndexes ++
              [layout.lookups.length]) ∧
      ((((layout.features.getD fi default).feature).lookupListIndexes).filterMap
          (fun idx =>
            if (layout.lookups.getD idx default).lookupType = lookupType then
              some (layout.lookups.getD idx default) else none) ≠ [] ∨ create = false →
        getLookupTables tables script language feature lookupType create =
          .ok (some layout,
            (((layout.features.getD fi default).feature).lookupListIndexes).filterMap
              (fun idx =>
                if (layout.lookups.getD idx default).lookupType = lookupType then
                  some (layout.lookups.getD idx default) else none)))) := by
  constructor
  · intro tables script language feature lookupType t' hfeat
    unfold getLookupTables
    rw [hfeat]
    simp only [getLookupTablesGo]
  · intro tables script language feature lookupType create layout fi hfeat
    constructor
    · intro htabs hc hfi
      unfold getLookupTables
      rw [hfeat]
      simp only [getLookupTablesGo]
      rw [htabs, hc]
      rw [if_pos ⟨rfl, rfl⟩]
      refine ⟨_, rfl, rfl, ?_⟩
      show (((layout.features.set fi _).getD fi default).feature).lookupListIndexes = _
      rw [getD_set_self _ _ _ _ hfi]
    · intro hor
      unfold getLookupTables
      rw [hfeat]
      simp only [getLookupTablesGo]
      rw [if_neg ?hcond]
      case hcond =>
        rintro ⟨hlen, hcr⟩
        rcases hor with h | h
        · exact h (List.length_eq_zero.mp hlen)
        · rw [h] at hcr
          exact Bool.false_ne_true hcr

/-- Witness for C9: an unresolvable chain yields `[]`, and on a table with a
feature but no lookups, `create = true` yields exactly the fresh lookup. -/
theorem claim_C9_witness :
    getLookupTables none "DFLT" "dflt" "liga" 4 false = .ok (none, []) ∧
    (∃ layout', getLookupTables
        (some ⟨[⟨"DFLT", ⟨⟨0, 0xffff, [0]⟩, []⟩⟩], [⟨"liga", ⟨0, []⟩⟩], []⟩)
        "DFLT" "dflt" "liga" 4 true = .ok (some layout', [⟨4, 0, [], none⟩]) ∧
      layout'.lookups = [⟨4, 0, [], none⟩] ∧
      ((layout'.features.getD 0 default).feature).lookupListIndexes = [0]) :=
  ⟨claim_C9.1 none "DFLT" "dflt" "liga" 4 none (by rfl),
   (claim_C9.2 (some ⟨[⟨"DFLT", ⟨⟨0, 0xffff, [0]⟩, []⟩⟩], [⟨"liga", ⟨0, []⟩⟩], []⟩)
      "DFLT" "dflt" "liga" 4 true
      ⟨[⟨"DFLT", ⟨⟨0, 0xffff, [0]⟩, []⟩⟩], [⟨"liga", ⟨0, []⟩⟩], []⟩ 0 (by rfl)).1
      (by rfl) rfl (by decide)⟩

/-- C3: `parseGDEFTable` accepts exactly the versions 1.0, 1.2 and 1.3 (any
other parsed version aborts the whole parse), attaches a `markGlyphSets` field
exactly when the version is at least 1.2, and a stored 16-bit offset of 0
decodes a pointer field to absent; concretely, a version-1.3 GDEF with all
five pointers 0 decodes to a table whose five fields are all absent, and a
version-1.0 GDEF has no `markGlyphSets` field at all. -/
theorem claim_C3 :
    (∀ (data : List Nat) (start : Nat) (g : GDEFTable),
      parseGDEFTable data start = .ok g →
      (g.version = 10 ∨ g.version = 12 ∨ g.version = 13) ∧
      (g.markGlyphSets.isSome = true ↔ 12 ≤ g.version)) ∧
    (∀ (data : List Nat) (start : Nat) (v : Nat) (p' : Parser),
      parseVersion 1 ⟨data, start, 0⟩ = .ok (v, p') →
      ¬(v = 10 ∨ v = 12 ∨ v = 13) →
      parseGDEFTable data start = .error "Unsupported GDEF table version.") ∧
    (∀ (A : Type) (sub : Parser → Except String (A × Parser)) (p p' : Parser),
      parseUShort p = .ok (0, p') → parsePointer sub p = .ok (none, p')) ∧
    parseGDEFTable [0, 1, 0, 3, 0, 0, 0, 0, 0, 0, 0, 0, 0, 0] 0 =
      .ok ⟨13, none, none, none, none, some none⟩ ∧
    parseGDEFTable [0, 1, 0, 0, 0, 0, 0, 0, 0, 0, 0, 0] 0 =
      .ok ⟨10, none, none, none, none, none⟩ := by
  refine ⟨?_, ?_, ?_, by rfl, by rfl⟩
  · intro data start g hok
    unfold parseGDEFTable at hok
    split at hok
    · exact absurd hok (by simp)
    · rename_i tableVersion p heq
      split at hok
      · rename_i hcond
        split at hok
        · exact absurd hok (by simp)
        · split at hok
          · exact absurd hok (by simp)
          · split at hok
            · exact absurd hok (by simp)
            · split at hok
              · exact absurd hok (by simp)
              · split at hok
                · rename_i hge
                  split at hok
                  · exact absurd hok (by simp)
                  · rw [Except.ok.injEq] at hok
                    subst hok
                    exact ⟨hcond, by simpa using hge⟩
                · rename_i hge
                  rw [Except.ok.injEq] at hok
                  subst hok
                  refine ⟨hcond, ?_⟩
                  simp only [Option.isSome_none]
                  constructor
                  · intro hfalse
                    exact absurd hfalse (by simp)
                  · intro hle
                    exact absurd hle hge
      · exact absurd hok (by simp)
  · intro data start v p' hpv hncond
    unfold parseGDEFTable
    simp only [hpv]
    rw [if_neg hncond]
  · intro A sub p p' hush
    unfold parsePointer
    simp only [hush]
    rw [if_neg (by decide : ¬ (0 : Nat) > 0)]

/-- Witness for C3: the general conjuncts applied at the concrete buffers —
the accepted version-1.3 parse, a rejected version-2.0 header, and a zero
pointer field. -/
theorem claim_C3_witness :
    (((13 : Nat) = 10 ∨ (13 : Nat) = 12 ∨ (13 : Nat) = 13) ∧
      ((some (none : Option (List (Option CoverageTable)))).isSome = true ↔ 12 ≤ 13)) ∧
    parseGDEFTable [0, 2, 0, 0] 0 = .error "Unsupported GDEF table version." ∧
    parsePointer parseCoverage ⟨[0, 0], 0, 0⟩ = .ok (none, ⟨[0, 0], 0, 2⟩) :=
  ⟨claim_C3.1 [0, 1, 0, 3, 0, 0, 0, 0, 0, 0, 0, 0, 0, 0] 0
      ⟨13, none, none, none, none, some none⟩ (by rfl),
   claim_C3.2.1 [0, 2, 0, 0] 0 20 ⟨[0, 2, 0, 0], 0, 4⟩ (by rfl) (by decide),
   claim_C3.2.2.1 CoverageTable parseCoverage ⟨[0, 0], 0, 0⟩ ⟨[0, 0], 0, 2⟩ (by rfl)⟩

end Opentype
